import Mathlib

/-!
Verification of the incremental mirror synchronization engine (`src/sync.py`).

The Python source is shallowly embedded below: definitions first, then the
theorems about them.  Machine integers are `Nat` with explicit reductions
mod 2^32 where the code (SHA-1) relies on 32-bit wraparound.  Python
exceptions are modelled with `Option`/`Except`: a `none`/`.error` result is
a raised exception.  Cell positions in the configuration are 1-based Python
ints; the embedding uses `Nat`, and the single place where a `Nat` cannot
mirror Python int arithmetic - the index expression `row[idx - 1]` for
`idx = 0`, which Python resolves by negative indexing to `row[-1]` (the
last element, or `IndexError` on an empty list) - is modelled explicitly by
an `idx = 0` case in each accessor.
-/

namespace TicketSync

/-! ## Definitions -/

/-! ### Python string and list primitives

These mirror the Python built-ins the engine uses.  They are defined
structurally over character lists so that they evaluate by kernel
reduction (`String.trim`, `String.toLower` and friends in core are defined
by well-founded recursion over byte positions and do not). -/

/-- Python's `str.strip()`: remove whitespace from both ends. -/
def pyStrip (s : String) : String :=
  String.mk (((s.data.dropWhile Char.isWhitespace).reverse.dropWhile
    Char.isWhitespace).reverse)

/-- Python's `str.lower()`, character-wise. -/
def pyLower (s : String) : String :=
  String.mk (s.data.map Char.toLower)

/-- Python's `row[-1]`: the last element, `IndexError` (`none`) when the
list is empty. -/
def pyLast (row : List String) : Option String :=
  if row.length = 0 then none else some (row.getD (row.length - 1) "")

/-! ### UTF-8 and SHA-1  (`make_composite_key` hashes with `hashlib.sha1`
over the UTF-8 encoding of the joined key string) -/

/-- UTF-8 encoding of one code point, as a list of byte values. -/
def utf8Bytes (c : Char) : List Nat :=
  let n := c.toNat
  if n < 128 then [n]
  else if n < 2048 then [192 + n / 64, 128 + n % 64]
  else if n < 65536 then [224 + n / 4096, 128 + n / 64 % 64, 128 + n % 64]
  else [240 + n / 262144, 128 + n / 4096 % 64, 128 + n / 64 % 64, 128 + n % 64]

/-- UTF-8 bytes of a string (Python `s.encode("utf-8")`). -/
def strBytes (s : String) : List Nat :=
  (s.data.map utf8Bytes).flatten

def u32 (n : Nat) : Nat := n % 4294967296

/-- Rotate a 32-bit word left by `s` bits (`0 < s < 32`, `x < 2^32`). -/
def rotl (s x : Nat) : Nat := (x % 2 ^ (32 - s)) * 2 ^ s + x / 2 ^ (32 - s)

/-- SHA-1 round function. -/
def sha1F (t b c d : Nat) : Nat :=
  if t < 20 then (b &&& c) ||| ((4294967295 - b) &&& d)
  else if t < 40 then b ^^^ c ^^^ d
  else if t < 60 then (b &&& c) ||| (b &&& d) ||| (c &&& d)
  else b ^^^ c ^^^ d

/-- SHA-1 round constants. -/
def sha1K (t : Nat) : Nat :=
  if t < 20 then 1518500249
  else if t < 40 then 1859775393
  else if t < 60 then 2400959708
  else 3395469782

/-- Big-endian packing of bytes into 32-bit words. -/
def toWordsBE : List Nat → List Nat
  | b0 :: b1 :: b2 :: b3 :: rest =>
      (((b0 * 256 + b1) * 256 + b2) * 256 + b3) :: toWordsBE rest
  | _ => []

/-- Big-endian 64-bit byte decomposition of the bit length. -/
def be64 (n : Nat) : List Nat :=
  [n / 2 ^ 56 % 256, n / 2 ^ 48 % 256, n / 2 ^ 40 % 256, n / 2 ^ 32 % 256,
   n / 2 ^ 24 % 256, n / 2 ^ 16 % 256, n / 2 ^ 8 % 256, n % 256]

/-- SHA-1 padding: append 0x80, zeros to 56 mod 64, then the bit length. -/
def sha1Pad (msg : List Nat) : List Nat :=
  msg ++ [128] ++ List.replicate ((119 - msg.length % 64) % 64) 0
      ++ be64 (msg.length * 8)

/-- Message-schedule extension; `wrev` holds the scheduled words in reverse
(most recent first), so `w[t-3]` is at head offset 2 and so on. -/
def extendW : Nat → List Nat → List Nat
  | 0, wrev => wrev
  | n + 1, wrev =>
      extendW n
        (rotl 1 ((wrev.getD 2 0) ^^^ (wrev.getD 7 0) ^^^
                 (wrev.getD 13 0) ^^^ (wrev.getD 15 0)) :: wrev)

/-- The 80 compression rounds, consuming the schedule word list. -/
def sha1Rounds : Nat → List Nat → Nat × Nat × Nat × Nat × Nat → Nat × Nat × Nat × Nat × Nat
  | _, [], st => st
  | t, wt :: rest, (a, b, c, d, e) =>
      sha1Rounds (t + 1) rest
        (u32 (rotl 5 a + sha1F t b c d + e + wt + sha1K t), a, rotl 30 b, c, d)

/-- One 64-byte block step. -/
def sha1Block (h : Nat × Nat × Nat × Nat × Nat) (block : List Nat) :
    Nat × Nat × Nat × Nat × Nat :=
  let w := (extendW 64 (toWordsBE block).reverse).reverse
  let (h0, h1, h2, h3, h4) := h
  let (a, b, c, d, e) := sha1Rounds 0 w h
  (u32 (h0 + a), u32 (h1 + b), u32 (h2 + c), u32 (h3 + d), u32 (h4 + e))

/-- Split a byte list into 64-byte chunks (fuel-driven; the fuel is the list
length, and each step consumes at least one element). -/
def chunks64 : Nat → List Nat → List (List Nat)
  | 0, _ => []
  | _ + 1, [] => []
  | n + 1, bytes => bytes.take 64 :: chunks64 n (bytes.drop 64)

def hexDigit (n : Nat) : Char :=
  if n < 10 then Char.ofNat (48 + n) else Char.ofNat (87 + n)

def hexWord (n : Nat) : List Char :=
  [hexDigit (n / 2 ^ 28 % 16), hexDigit (n / 2 ^ 24 % 16),
   hexDigit (n / 2 ^ 20 % 16), hexDigit (n / 2 ^ 16 % 16),
   hexDigit (n / 2 ^ 12 % 16), hexDigit (n / 2 ^ 8 % 16),
   hexDigit (n / 2 ^ 4 % 16), hexDigit (n % 16)]

/-- Lowercase-hex SHA-1 digest of a byte list (Python
`hashlib.sha1(bytes).hexdigest()`). -/
def sha1Hex (msg : List Nat) : String :=
  let padded := sha1Pad msg
  let h := (chunks64 padded.length padded).foldl sha1Block
    (1732584193, 4023233417, 2562383102, 271733878, 3285377520)
  let (h0, h1, h2, h3, h4) := h
  String.mk (hexWord h0 ++ hexWord h1 ++ hexWord h2 ++ hexWord h3 ++ hexWord h4)

/-! ### `make_composite_key`  (src/sync.py lines 190-195)

```python
def make_composite_key(row, keycols):
    parts = []
    for idx in keycols:
        parts.append((row[idx - 1].strip() if idx - 1 < len(row) else ""))
    basis = "␟".join(parts)
    return hashlib.sha1(basis.encode("utf-8")).hexdigest()
```

`idx` is a Python int, so for `idx = 0` the guard `idx - 1 < len(row)` is
`-1 < len(row)` - always true - and `row[-1]` is the last element of the
row (an `IndexError` on an empty row, modelled as `none`). -/

/-- The value the code appends to `parts` for one key column. -/
def key_part (row : List String) (idx : Nat) : Option String :=
  if idx = 0 then (pyLast row).map pyStrip
  else if idx - 1 < row.length then some (pyStrip (row.getD (idx - 1) ""))
  else some ""

/-- Python's `for` loop building `parts`, raising (`none`) as the code does. -/
def key_parts (row : List String) : List Nat → Option (List String)
  | [] => some []
  | idx :: rest =>
      match key_part row idx with
      | none => none
      | some p => (key_parts row rest).map (fun ps => p :: ps)

/-- The U+241F separator used by the code. -/
def sepStr : String := String.mk [Char.ofNat 9247]

def make_composite_key (row : List String) (keycols : List Nat) : Option String :=
  (key_parts row keycols).map
    (fun parts => sha1Hex (strBytes (sepStr.intercalate parts)))

/-- Modelled from the claim/spec wording, for comparison with the code: the
key value of column `idx` is its trimmed cell when `idx` is in range
(1-based, so the range is `1..row.length`) and the empty string when it is
out of range. -/
def specKeyValue (row : List String) (idx : Nat) : String :=
  if 1 ≤ idx ∧ idx ≤ row.length then pyStrip (row.getD (idx - 1) "") else ""

/-! ### `map_row_to_master`  (src/sync.py lines 179-187)

```python
def map_row_to_master(row, mapping, statics, width):
    out = [""] * width
    for d_idx, sval in statics.items():
        if 1 <= d_idx <= width:
            out[d_idx - 1] = sval
    for s_idx, d_idx in mapping.items():
        if 1 <= d_idx <= width:
            out[d_idx - 1] = row[s_idx - 1] if s_idx - 1 < len(row) else ""
    return out
```

Python dicts iterate in insertion order, so `mapping` and `statics` are
embedded as association lists.  As with `make_composite_key`, the source
read `row[s_idx - 1]` guarded by `s_idx - 1 < len(row)` means that for
`s_idx = 0` Python evaluates `row[-1]`: the last element, or an
`IndexError` (modelled `none`) on an empty row. -/

/-- The value read from the source row for mapped source position `s_idx`
(`none` models the `IndexError` raised for `s_idx = 0` on an empty row). -/
def map_src_val (row : List String) (s_idx : Nat) : Option String :=
  if s_idx = 0 then pyLast row
  else if s_idx - 1 < row.length then some (row.getD (s_idx - 1) "")
  else some ""

/-- `out[d_idx - 1] = v` under the guard `1 <= d_idx <= width`. -/
def set_cell (out : List String) (d_idx : Nat) (v : String) (width : Nat) :
    List String :=
  if 1 ≤ d_idx ∧ d_idx ≤ width then out.set (d_idx - 1) v else out

/-- The statics loop. -/
def apply_statics (width : Nat) : List (Nat × String) → List String → List String
  | [], out => out
  | p :: rest, out => apply_statics width rest (set_cell out p.1 p.2 width)

/-- The mapping loop; the source cell is read only when the destination
guard holds, exactly as in the Python conditional. -/
def apply_mapping (row : List String) (width : Nat) :
    List (Nat × Nat) → List String → Option (List String)
  | [], out => some out
  | p :: rest, out =>
      if 1 ≤ p.2 ∧ p.2 ≤ width then
        match map_src_val row p.1 with
        | none => none
        | some v => apply_mapping row width rest (out.set (p.2 - 1) v)
      else apply_mapping row width rest out

def map_row_to_master (row : List String) (mapping : List (Nat × Nat))
    (statics : List (Nat × String)) (width : Nat) : Option (List String) :=
  apply_mapping row width mapping
    (apply_statics width statics (List.replicate width ""))

/-! ### Retry / backoff wrappers  (src/sync.py lines 81, 144-177)

```python
RETRYABLE_SNIPPETS = ("[503]", "backenderror", "internal",
                      "service is currently unavailable", "quota", "429")

def values_get_safe(ws, rng, retries=6):
    delay = BACKOFF_BASE_SEC
    for attempt in range(retries):
        try:
            vals = ws.get(rng); ...; return vals
        except APIError as e:
            msg = str(e).lower()
            if any(token in msg for token in RETRYABLE_SNIPPETS):
                delay = backoff_delay(delay); continue
            raise
    vals = ws.get(rng); ...; return vals          # final bare attempt

def append_rows_safe(ws, rows, retries=6):
    if not rows: return
    ... same loop ...
    ws.append_rows(rows, value_input_option="RAW")  # final bare attempt
```

The remote call is modelled by an environment `env : Nat -> Outcome`
giving the outcome of the k-th attempt; `.apiErr` is a `gspread` `APIError`
(the only exception the `except` clause catches), `.otherErr` any other
exception.  Sleeping only spends time, so `backoff_delay` is not modelled.
-/

inductive Outcome (α : Type) where
  | ok (v : α)
  | apiErr (msg : String)
  | otherErr (msg : String)
deriving DecidableEq

def RETRYABLE_SNIPPETS : List String :=
  ["[503]", "backenderror", "internal", "service is currently unavailable",
   "quota", "429"]

/-- `t.isPrefixOf s` over characters, then sliding: Python `token in msg`. -/
def listContains (t : List Char) : List Char → Bool
  | [] => t.isEmpty
  | c :: rest => t.isPrefixOf (c :: rest) || listContains t rest

/-- Python `token in msg` for strings. -/
def strContains (msg tok : String) : Bool :=
  listContains tok.data msg.data

/-- `any(token in msg for token in RETRYABLE_SNIPPETS)` where
`msg = str(e).lower()`. -/
def is_retryable (msg : String) : Bool :=
  RETRYABLE_SNIPPETS.any (fun tok => strContains (pyLower msg) tok)

/-- The `for attempt in range(n)` retry loop followed (when the loop
exhausts) by the final bare call, at attempt index `k`. -/
def retry_attempts {α : Type} (env : Nat → Outcome α) : Nat → Nat → Except String α
  | k, 0 =>
      match env k with
      | Outcome.ok v => Except.ok v
      | Outcome.apiErr m => Except.error m
      | Outcome.otherErr m => Except.error m
  | k, n + 1 =>
      match env k with
      | Outcome.ok v => Except.ok v
      | Outcome.apiErr m =>
          if is_retryable m then retry_attempts env (k + 1) n else Except.error m
      | Outcome.otherErr m => Except.error m

def values_get_safe {α : Type} (env : Nat → Outcome α) (retries : Nat) :
    Except String α :=
  retry_attempts env 0 retries

def append_rows_safe (rows : List (List String)) (env : Nat → Outcome Unit)
    (retries : Nat) : Except String Unit :=
  if rows.isEmpty then Except.ok () else retry_attempts env 0 retries

/-! ### The row loop of `process_flow_for_source`  (src/sync.py 277-327)

```python
for i, row in enumerate(values):
    abs_row = r + i
    total_scanned += 1
    bad = False
    for idx in required:
        if idx - 1 >= len(row) or str(row[idx - 1]).strip() == "":
            bad = True; break
    if bad: continue
    synced_val = ""
    if sync_col - 1 < len(row):
        synced_val = str(row[sync_col - 1]).strip()
    if synced_val: continue
    flag_updates.append({"range": ..., "values": [["1"]]})
    if START_FROM_NOW:
        ...flush flags when full...; continue
    out = map_row_to_master(row, mapping, statics, master_width)
    batch_rows.append(out)
    if len(batch_rows) >= BATCH_APPEND_ROWS: ...flush...
```

Paging (`values_get_safe` per `PAGE_ROWS` window) only splits the same
row sequence into chunks and never flushes a batch by itself, so the row
loop is embedded as a single pass over the window's rows.  The guards
`idx - 1 >= len(row)` and `sync_col - 1 < len(row)` are Python int
comparisons: for `idx = 0` (resp. `sync_col = 0`) they put `row[-1]` in
play, modelled via `pyLast` as above. -/

/-- Per-flow configuration slice of `process_flow_for_source`. -/
structure Cfg where
  required : List Nat
  mapping : List (Nat × Nat)
  statics : List (Nat × String)
  sync_col : Nat
deriving DecidableEq

/-- What the row loop decides to do with one row. -/
inductive RowAction where
  | skip
  | flagOnly
  | flagAppend (out : List String)
deriving DecidableEq

/-- One iteration of the `for idx in required` check:
`idx - 1 >= len(row) or str(row[idx - 1]).strip() == ""`. -/
def req_missing (row : List String) (idx : Nat) : Option Bool :=
  if idx = 0 then (pyLast row).map (fun v => pyStrip v == "")
  else if row.length ≤ idx - 1 then some true
  else some (pyStrip (row.getD (idx - 1) "") == "")

/-- The required-columns loop with its early `break`. -/
def row_bad (row : List String) : List Nat → Option Bool
  | [] => some false
  | idx :: rest =>
      match req_missing row idx with
      | none => none
      | some true => some true
      | some false => row_bad row rest

/-- The already-flagged probe: the trimmed content of the reserved sync
column, `""` when the row is too short to reach it. -/
def synced_val (row : List String) (sync_col : Nat) : Option String :=
  if sync_col = 0 then (pyLast row).map pyStrip
  else if sync_col - 1 < row.length then
    some (pyStrip (row.getD (sync_col - 1) ""))
  else some ""

/-- The decision the loop body takes for one row (`none` = an exception
escapes the body; `Option.bind` propagates it, as Python propagates a
raise). -/
def scan_row (cfg : Cfg) (baseline : Bool) (width : Nat) (row : List String) :
    Option RowAction :=
  (row_bad row cfg.required).bind (fun bad =>
    if bad then some RowAction.skip
    else (synced_val row cfg.sync_col).bind (fun s =>
      if s ≠ "" then some RowAction.skip
      else if baseline then some RowAction.flagOnly
      else (map_row_to_master row cfg.mapping cfg.statics width).map
        RowAction.flagAppend))

/-- Pure view of one unit run in which every remote write succeeds: which
rows get appended (in order), which absolute rows get flagged, and the
scanned count.  Batching only groups the same appends/flag writes into
remote calls, so it does not affect this view. -/
def process_flow_rows (cfg : Cfg) (baseline : Bool) (width : Nat) :
    List (List String) → Nat → Option (List (List String) × List Nat × Nat)
  | [], _ => some ([], [], 0)
  | row :: rest, pos =>
      match scan_row cfg baseline width row with
      | none => none
      | some act =>
          match process_flow_rows cfg baseline width rest (pos + 1) with
          | none => none
          | some (app, flags, sc) =>
              match act with
              | RowAction.skip => some (app, flags, sc + 1)
              | RowAction.flagOnly => some (app, pos :: flags, sc + 1)
              | RowAction.flagAppend out => some (out :: app, pos :: flags, sc + 1)

/-- Write `v` at 0-based index `n`, padding with `""` as needed - the
effect, on the next window read, of the engine's `batch_update` writing a
cell at a column possibly beyond the row's current data. -/
def setPad : List String → Nat → String → List String
  | [], 0, v => [v]
  | [], n + 1, v => "" :: setPad [] n v
  | _ :: t, 0, v => v :: t
  | h :: t, n + 1, v => h :: setPad t n v

/-- The sync-flag write-back `{"range": colN(abs_row), "values": [["1"]]}`
as seen by the next read of the same row. -/
def set_flag_cell (row : List String) (sync_col : Nat) : List String :=
  setPad row (sync_col - 1) "1"

/-- Apply the run's flag write-backs to the source window: the row at
absolute position `p ∈ flags` gets `"1"` in the sync column. -/
def apply_flags (sync_col : Nat) (flags : List Nat) :
    List (List String) → Nat → List (List String)
  | [], _ => []
  | row :: rest, pos =>
      (if pos ∈ flags then set_flag_cell row sync_col else row)
        :: apply_flags sync_col flags rest (pos + 1)

/-! ### Batched-write trace of `process_flow_for_source`  (src/sync.py 266-342)

The same row loop, now instrumented with the remote-write events it issues
and their outcomes.  `appendOk k` / `flagOk k` give the outcome of the k-th
destination append (`append_rows_safe`, all its retries included) and of
the k-th flag `batch_update`.  The code regions embedded:

```python
if len(batch_rows) >= BATCH_APPEND_ROWS:       # flush_full (lines 318-327)
    append_rows_safe(tickets_ws, batch_rows)   #   may raise -> unit fails
    try:
        ws.batch_update(flag_updates)          #   APIError caught
    except APIError as e:
        print("Warning: ...")
    total_appended += len(batch_rows)
    batch_rows.clear(); flag_updates.clear()

if len(flag_updates) >= BATCH_APPEND_ROWS:     # flush_flags_caught (305-311)
    try: ws.batch_update(flag_updates)
    except APIError as e: print(...)
    flag_updates.clear()

# final flush (lines 331-340): note NEITHER ws.batch_update call
# below is wrapped in try/except - an APIError there propagates.
if START_FROM_NOW:
    if flag_updates: ws.batch_update(flag_updates)
else:
    if batch_rows:
        append_rows_safe(tickets_ws, batch_rows)
        total_appended += len(batch_rows)
    if flag_updates: ws.batch_update(flag_updates)
```
-/

structure TEnv where
  appendOk : Nat → Bool
  flagOk : Nat → Bool

/-- Remote-write events of one unit run.  `append` is a successful
destination append, `appendFail` one that raised after its retries,
`flagWrite ok φ` a flag `batch_update` for absolute source rows `φ`. -/
inductive Ev where
  | append (rows : List (List String))
  | appendFail (rows : List (List String))
  | flagWrite (ok : Bool) (flags : List Nat)
deriving DecidableEq

/-- The loop state: `batch_rows`, `flag_updates`, the two counters, the
events issued so far, and the per-kind call counts. -/
structure TState where
  batch : List (List String)
  flags : List Nat
  appended : Nat
  scanned : Nat
  events : List Ev
  ak : Nat
  fk : Nat
deriving DecidableEq

def initTState : TState := ⟨[], [], 0, 0, [], 0, 0⟩

/-- Lines 318-327: append the full batch (raising on failure), then try the
flag write with `APIError` caught, count the batch, clear both lists. -/
def flush_full (env : TEnv) (st : TState) : Except (List Ev) TState :=
  if env.appendOk st.ak then
    Except.ok
      { batch := [], flags := [],
        appended := st.appended + st.batch.length, scanned := st.scanned,
        events := st.events
          ++ [Ev.append st.batch, Ev.flagWrite (env.flagOk st.fk) st.flags],
        ak := st.ak + 1, fk := st.fk + 1 }
  else Except.error (st.events ++ [Ev.appendFail st.batch])

/-- Lines 305-311 (baseline mode in-loop flag flush; `APIError` caught,
`flag_updates` cleared either way). -/
def flush_flags_caught (env : TEnv) (st : TState) : TState :=
  { st with
    flags := [],
    events := st.events ++ [Ev.flagWrite (env.flagOk st.fk) st.flags],
    fk := st.fk + 1 }

/-- The instrumented row loop. -/
def run_rows (env : TEnv) (cfg : Cfg) (baseline : Bool) (width bsz : Nat) :
    List (List String) → Nat → TState → Except (List Ev) TState
  | [], _, st => Except.ok st
  | row :: rest, pos, st =>
      match scan_row cfg baseline width row with
      | none => Except.error st.events
      | some RowAction.skip =>
          run_rows env cfg baseline width bsz rest (pos + 1)
            { st with scanned := st.scanned + 1 }
      | some RowAction.flagOnly =>
          if bsz ≤ st.flags.length + 1 then
            run_rows env cfg baseline width bsz rest (pos + 1)
              (flush_flags_caught env
                { st with scanned := st.scanned + 1, flags := st.flags ++ [pos] })
          else
            run_rows env cfg baseline width bsz rest (pos + 1)
              { st with scanned := st.scanned + 1, flags := st.flags ++ [pos] }
      | some (RowAction.flagAppend out) =>
          if bsz ≤ st.batch.length + 1 then
            match flush_full env
              { st with
                scanned := st.scanned + 1,
                flags := st.flags ++ [pos], batch := st.batch ++ [out] } with
            | Except.error t => Except.error t
            | Except.ok st2 => run_rows env cfg baseline width bsz rest (pos + 1) st2
          else
            run_rows env cfg baseline width bsz rest (pos + 1)
              { st with
                scanned := st.scanned + 1,
                flags := st.flags ++ [pos], batch := st.batch ++ [out] }

/-- Lines 331-340: the final flush.  The trailing `ws.batch_update` calls
are NOT inside a try/except: their `APIError` propagates (`.error`). -/
def final_flush (env : TEnv) (baseline : Bool) (st : TState) :
    Except (List Ev) TState :=
  if baseline then
    if st.flags.isEmpty then Except.ok st
    else if env.flagOk st.fk then
      Except.ok
        { st with
          flags := [],
          events := st.events ++ [Ev.flagWrite true st.flags], fk := st.fk + 1 }
    else Except.error (st.events ++ [Ev.flagWrite false st.flags])
  else
    match (if st.batch.isEmpty then Except.ok st
      else if env.appendOk st.ak then
        Except.ok
          { st with
            appended := st.appended + st.batch.length,
            events := st.events ++ [Ev.append st.batch], ak := st.ak + 1 }
      else Except.error (st.events ++ [Ev.appendFail st.batch])) with
    | Except.error t => Except.error t
    | Except.ok st1 =>
        if st1.flags.isEmpty then Except.ok st1
        else if env.flagOk st1.fk then
          Except.ok
            { st1 with
              flags := [],
              events := st1.events ++ [Ev.flagWrite true st1.flags],
              fk := st1.fk + 1 }
        else Except.error (st1.events ++ [Ev.flagWrite false st1.flags])

/-- One unit run: the row loop from a fresh state, then the final flush; on
success the events, `total_appended` and `total_scanned` are returned, on an
exception (`.error`) the events issued before the raise. -/
def process_flow_trace (env : TEnv) (cfg : Cfg) (baseline : Bool)
    (width bsz : Nat) (rows : List (List String)) (startPos : Nat) :
    Except (List Ev) (List Ev × Nat × Nat) :=
  match run_rows env cfg baseline width bsz rows startPos initTState with
  | Except.error t => Except.error t
  | Except.ok st =>
      match final_flush env baseline st with
      | Except.error t => Except.error t
      | Except.ok st' => Except.ok (st'.events, st'.appended, st'.scanned)

/-- The events a run issued, whether or not it completed. -/
def traceOf (r : Except (List Ev) (List Ev × Nat × Nat)) : List Ev :=
  match r with
  | Except.error t => t
  | Except.ok (t, _, _) => t

def evsOf (r : Except (List Ev) TState) : List Ev :=
  match r with
  | Except.error t => t
  | Except.ok st => st.events

/-- The flag list `φ` and destination batch `b` correspond: same length,
and the k-th flagged absolute row maps - through the window `rows` starting
at `startPos` - to exactly the k-th appended row. -/
def BatchMatches (rows : List (List String)) (startPos : Nat) (cfg : Cfg)
    (width : Nat) (φ : List Nat) (b : List (List String)) : Prop :=
  φ.length = b.length ∧
  ∀ k, k < φ.length →
    map_row_to_master (rows.getD (φ.getD k 0 - startPos) [])
        cfg.mapping cfg.statics width
      = some (b.getD k [])

/-- Traces consisting of complete `[append b, flagWrite ok φ]` blocks with
`φ` matching `b`. -/
inductive Blocks (M : List Nat → List (List String) → Prop) : List Ev → Prop where
  | nil : Blocks M []
  | block (ok : Bool) (φ : List Nat) (b : List (List String)) (t : List Ev) :
      M φ b → Blocks M t → Blocks M (Ev.append b :: Ev.flagWrite ok φ :: t)

/-- Traces in which every dedup-state write immediately follows the
successful destination append of exactly its batch: complete blocks,
optionally ending in a failed append. -/
inductive Paired (M : List Nat → List (List String) → Prop) : List Ev → Prop where
  | nil : Paired M []
  | fail (b : List (List String)) : Paired M [Ev.appendFail b]
  | block (ok : Bool) (φ : List Nat) (b : List (List String)) (t : List Ev) :
      M φ b → Paired M t → Paired M (Ev.append b :: Ev.flagWrite ok φ :: t)

/-! ### Missing tab and the outer loop  (src/sync.py 229-233, 345-388)

```python
ss = open_spreadsheet_safe(gc, spreadsheet_id)
ws = get_ws_safe(ss, tab)          # None on WorksheetNotFound
if not ws:
    print(f"... tab missing - skipping")
    return 0, 0                    # nothing read, nothing written

def main():
    ...
    sources = get_source_ids(master)
    if not sources:
        print("No sources in Source!B2:B - nothing to do."); return
    if TOTAL_SHARDS > 1:
        filtered = [s for i, s in enumerate(sources)
                    if i % TOTAL_SHARDS == SHARD_INDEX]
        sources = filtered
    for flow in ("ALL", "LI"):
        flow_app = flow_scan = 0
        for sid in sources:
            try:
                a, s = process_flow_for_source(...)
            except Exception as e:
                print(f"ERROR processing source ..."); a, s = 0, 0
            flow_app += a; flow_scan += s
        print(f"... scanned=... appended=...")
```

`main` holds no state between runs: each run re-reads the registry and
re-attempts every (flow, source) unit; nothing records that a tab was
found absent. -/

/-- The per-unit environment: whether `get_ws_safe` finds the configured
tab, and the window and write outcomes when it does. -/
structure UnitEnv where
  tabExists : Bool
  rows : List (List String)
  startPos : Nat
  tenv : TEnv

/-- Lines 229-233 composed with the row loop: an absent tab returns
`(0, 0)` at once, before any row read or write; otherwise the unit runs as
`process_flow_trace`. -/
def process_unit (cfg : Cfg) (baseline : Bool) (width bsz : Nat) (e : UnitEnv) :
    Except (List Ev) (List Ev × Nat × Nat) :=
  if e.tabExists then
    process_flow_trace e.tenv cfg baseline width bsz e.rows e.startPos
  else Except.ok ([], 0, 0)

def flowNames : List String := ["ALL", "LI"]

/-- `a, s = process_flow_for_source(...)` under main's try/except: a
raising unit is logged and contributes zero. -/
def unit_counts (r : Except (List Ev) (List Ev × Nat × Nat)) : Nat × Nat :=
  match r with
  | Except.ok (_, a, s) => (a, s)
  | Except.error _ => (0, 0)

/-- main's inner loop: accumulated (appended, scanned) over the sources of
one flow. -/
def flow_totals (u : String → String → Except (List Ev) (List Ev × Nat × Nat))
    (flow : String) : List String → Nat × Nat
  | [] => (0, 0)
  | sid :: rest =>
      ((unit_counts (u flow sid)).1 + (flow_totals u flow rest).1,
       (unit_counts (u flow sid)).2 + (flow_totals u flow rest).2)

/-- The static shard partition applied when `TOTAL_SHARDS > 1`. -/
def shard_filter (totalShards shardIndex : Nat) (sources : List String) :
    List String :=
  if 1 < totalShards then
    (sources.enum.filter (fun p => p.1 % totalShards == shardIndex)).map Prod.snd
  else sources

inductive MainResult where
  | noSources
  | ran (perFlow : List (String × Nat × Nat)) (processed : List (String × String))
deriving DecidableEq

/-- `main` (lines 357-388): an empty registry is a successful no-op before
any processing; otherwise the shard filter is applied and every flow ×
source unit is attempted, each under try/except.  `perFlow` holds each
flow's printed (scanned, appended) pair, `processed` every (flow, source)
unit the loop attempted. -/
def main_run (totalShards shardIndex : Nat) (sources : List String)
    (u : String → String → Except (List Ev) (List Ev × Nat × Nat)) : MainResult :=
  if sources.isEmpty then MainResult.noSources
  else
    MainResult.ran
      (flowNames.map (fun f =>
        (f, (flow_totals u f (shard_filter totalShards shardIndex sources)).2,
            (flow_totals u f (shard_filter totalShards shardIndex sources)).1)))
      ((flowNames.map (fun f =>
        (shard_filter totalShards shardIndex sources).map (fun s => (f, s)))).flatten)

/-- The units a run attempted. -/
def attempted : MainResult → List (String × String)
  | MainResult.noSources => []
  | MainResult.ran _ processed => processed

/-- A concrete unit environment whose configured tab is absent. -/
def absentTabEnv : UnitEnv :=
  ⟨false, [["x"]], 4, ⟨fun _ => true, fun _ => true⟩⟩

/-! ## Theorems -/

/-! ### Small list helpers -/

theorem getD_append_lt {α : Type} (l l' : List α) (d : α) :
    ∀ i, i < l.length → (l ++ l').getD i d = l.getD i d := by
  induction l with
  | nil => intro i h; exact absurd h (Nat.not_lt_zero i)
  | cons a t ih =>
    intro i h
    cases i with
    | zero => rfl
    | succ j => exact ih j (Nat.lt_of_succ_lt_succ h)

theorem getD_append_len {α : Type} (l : List α) (a d : α) :
    (l ++ [a]).getD l.length d = a := by
  induction l with
  | nil => rfl
  | cons b t ih => exact ih

theorem getD_set_ne {α : Type} (l : List α) (a d : α) :
    ∀ i j, i ≠ j → (l.set i a).getD j d = l.getD j d := by
  induction l with
  | nil => intro i j _; cases i <;> rfl
  | cons b t ih =>
    intro i j hij
    cases i with
    | zero =>
      cases j with
      | zero => exact absurd rfl hij
      | succ j' => rfl
    | succ i' =>
      cases j with
      | zero => rfl
      | succ j' => exact ih i' j' (fun h => hij (by rw [h]))

theorem getD_set_self {α : Type} (l : List α) (a d : α) :
    ∀ i, i < l.length → (l.set i a).getD i d = a := by
  induction l with
  | nil => intro i h; exact absurd h (Nat.not_lt_zero i)
  | cons b t ih =>
    intro i h
    cases i with
    | zero => rfl
    | succ i' => exact ih i' (Nat.lt_of_succ_lt_succ h)

theorem getD_replicate {α : Type} (d : α) :
    ∀ n j, ((List.replicate n d).getD j d) = d := by
  intro n
  induction n with
  | zero => intro j; cases j <;> rfl
  | succ m ih => intro j; cases j with
    | zero => rfl
    | succ j' => exact ih j'

set_option maxRecDepth 40000 in
/-- Sanity anchor for the SHA-1 embedding: the standard test vector. -/
theorem sha1_abc :
    sha1Hex (strBytes "abc") = "a9993e364706816aba3e25717850c26c9cd0d89d" := by
  decide

/-! ### C8: `make_composite_key` -/

theorem key_parts_congr (r1 r2 : List String) :
    ∀ keycols : List Nat, (∀ idx ∈ keycols, key_part r1 idx = key_part r2 idx) →
      key_parts r1 keycols = key_parts r2 keycols := by
  intro keycols
  induction keycols with
  | nil => intro _; rfl
  | cons idx rest ih =>
    intro h
    have hhd : key_part r1 idx = key_part r2 idx := h idx (List.mem_cons_self idx rest)
    have htl := ih (fun j hj => h j (List.mem_cons_of_mem idx hj))
    simp only [key_parts, hhd, htl]

theorem key_part_pos_eq_spec (row : List String) (idx : Nat) (hpos : 1 ≤ idx) :
    key_part row idx = some (specKeyValue row idx) := by
  have h0 : idx ≠ 0 := Nat.pos_iff_ne_zero.mp hpos
  by_cases hin : idx - 1 < row.length
  · have : idx ≤ row.length := by omega
    simp [key_part, specKeyValue, h0, hin, hpos, this]
  · have : ¬ idx ≤ row.length := by omega
    simp [key_part, specKeyValue, h0, hin, this]

theorem key_parts_pos (row : List String) :
    ∀ keycols : List Nat, (∀ idx ∈ keycols, 1 ≤ idx) →
      key_parts row keycols = some (keycols.map (specKeyValue row)) := by
  intro keycols
  induction keycols with
  | nil => intro _; rfl
  | cons idx rest ih =>
    intro h
    have hhd := key_part_pos_eq_spec row idx (h idx (List.mem_cons_self idx rest))
    have htl := ih (fun j hj => h j (List.mem_cons_of_mem idx hj))
    simp only [key_parts, hhd, htl, List.map]
    rfl

/-- C8: identity-hash congruence.  If two rows produce the same (trimmed)
key-column values - in the sense in which the code reads them - then
`make_composite_key` agrees on them, whatever the other columns hold; and
for 1-based (positive) key columns the result is exactly the SHA-1 hex
digest of the trimmed key values joined by U+241F, with out-of-range
positions contributing the empty string.  (For key position 0 the original
claim fails; see the counterexample.) -/
theorem C8_composite_key_congruence (r1 r2 : List String) (keycols : List Nat)
    (hagree : ∀ idx ∈ keycols, key_part r1 idx = key_part r2 idx) :
    make_composite_key r1 keycols = make_composite_key r2 keycols
    ∧ ((∀ idx ∈ keycols, 1 ≤ idx) →
        make_composite_key r1 keycols =
          some (sha1Hex (strBytes (sepStr.intercalate (keycols.map (specKeyValue r1)))))) := by
  constructor
  · unfold make_composite_key
    rw [key_parts_congr r1 r2 keycols hagree]
  · intro hpos
    unfold make_composite_key
    rw [key_parts_pos r1 keycols hpos]
    rfl

/-- C8 witness: two rows that agree on the trimmed value of key column 2
(`"a"`) but differ everywhere else hash identically. -/
theorem C8_composite_key_congruence_witness :
    make_composite_key ["x", "a ", "p"] [2] = make_composite_key ["yy", " a"] [2] :=
  (C8_composite_key_congruence ["x", "a ", "p"] ["yy", " a"] [2]
    (by decide)).1

set_option maxRecDepth 40000 in
/-- C8 counterexample: with key-column list `[0]`, position 0 is out of the
1-based range, so per the claim both rows contribute the empty string and
must hash identically; the code instead indexes `row[-1]` (Python negative
indexing), hashing the last cell, so the hashes differ.  The two digests
are the true SHA-1 digests of `"a"` and `"b"`. -/
theorem C8_counterexample :
    specKeyValue ["a"] 0 = specKeyValue ["b"] 0
    ∧ make_composite_key ["a"] [0] = some "86f7e437faa5a7fce15d1ddcb9eaeaea377667b8"
    ∧ make_composite_key ["b"] [0] = some "e9d71f5ee7c92d6dc9e92ffdad17b8bd49418f98"
    ∧ make_composite_key ["a"] [0] ≠ make_composite_key ["b"] [0] := by
  refine ⟨rfl, by decide, by decide, by decide⟩

/-! ### C4: `map_row_to_master` -/

theorem apply_statics_length (width : Nat) :
    ∀ statics out, (apply_statics width statics out).length = out.length := by
  intro statics
  induction statics with
  | nil => intro out; rfl
  | cons p rest ih =>
    intro out
    show (apply_statics width rest (set_cell out p.1 p.2 width)).length = out.length
    rw [ih (set_cell out p.1 p.2 width)]
    unfold set_cell
    by_cases h : 1 ≤ p.1 ∧ p.1 ≤ width
    · simp [h, List.length_set]
    · simp [h]

theorem map_src_val_pos_isSome (row : List String) (s_idx : Nat)
    (h : 1 ≤ s_idx) : ∃ v, map_src_val row s_idx = some v := by
  have h0 : s_idx ≠ 0 := Nat.pos_iff_ne_zero.mp h
  by_cases hin : s_idx - 1 < row.length
  · exact ⟨row.getD (s_idx - 1) "", by simp [map_src_val, h0, hin]⟩
  · exact ⟨"", by simp [map_src_val, h0, hin]⟩

theorem apply_mapping_pos_some (row : List String) (width : Nat) :
    ∀ mapping out, (∀ p ∈ mapping, 1 ≤ p.1) →
      ∃ out', apply_mapping row width mapping out = some out'
        ∧ out'.length = out.length := by
  intro mapping
  induction mapping with
  | nil => intro out _; exact ⟨out, rfl, rfl⟩
  | cons p rest ih =>
    intro out hpos
    have hp := hpos p (List.mem_cons_self p rest)
    have hrest : ∀ q ∈ rest, 1 ≤ q.1 :=
      fun q hq => hpos q (List.mem_cons_of_mem p hq)
    by_cases hd : 1 ≤ p.2 ∧ p.2 ≤ width
    · obtain ⟨v, hv⟩ := map_src_val_pos_isSome row p.1 hp
      obtain ⟨out', h1, h2⟩ := ih (out.set (p.2 - 1) v) hrest
      refine ⟨out', ?_, ?_⟩
      · show apply_mapping row width (p :: rest) out = some out'
        unfold apply_mapping
        simp [hd, hv, h1]
      · rw [h2, List.length_set]
    · obtain ⟨out', h1, h2⟩ := ih out hrest
      refine ⟨out', ?_, h2⟩
      show apply_mapping row width (p :: rest) out = some out'
      unfold apply_mapping
      simp [hd, h1]

theorem apply_statics_untouched (width : Nat) :
    ∀ statics out j d, (∀ p ∈ statics, p.1 ≠ j + 1) →
      (apply_statics width statics out).getD j d = out.getD j d := by
  intro statics
  induction statics with
  | nil => intro out j d _; rfl
  | cons p rest ih =>
    intro out j d h
    have hp := h p (List.mem_cons_self p rest)
    have hrest : ∀ q ∈ rest, q.1 ≠ j + 1 :=
      fun q hq => h q (List.mem_cons_of_mem p hq)
    show (apply_statics width rest (set_cell out p.1 p.2 width)).getD j d = out.getD j d
    rw [ih (set_cell out p.1 p.2 width) j d hrest]
    unfold set_cell
    by_cases hg : 1 ≤ p.1 ∧ p.1 ≤ width
    · have hne : p.1 - 1 ≠ j := by omega
      rw [if_pos hg]
      exact getD_set_ne out p.2 d (p.1 - 1) j hne
    · rw [if_neg hg]

theorem apply_statics_writes (width : Nat) :
    ∀ statics out, (statics.map Prod.fst).Nodup →
      ∀ p ∈ statics, 1 ≤ p.1 → p.1 ≤ width → width ≤ out.length →
        (apply_statics width statics out).getD (p.1 - 1) "" = p.2 := by
  intro statics
  induction statics with
  | nil => intro out _ p hp; cases hp
  | cons q rest ih =>
    intro out hnd p hp h1 h2 hwl
    have hndtail : (rest.map Prod.fst).Nodup := (List.nodup_cons.mp hnd).2
    have hhd : q.1 ∉ rest.map Prod.fst := (List.nodup_cons.mp hnd).1
    rcases List.mem_cons.mp hp with hqp | hptail
    · subst hqp
      show (apply_statics width rest (set_cell out p.1 p.2 width)).getD (p.1 - 1) ""
        = p.2
      have huntouched : ∀ r ∈ rest, r.1 ≠ (p.1 - 1) + 1 := by
        intro r hr hcontra
        exact hhd (by
          have : r.1 = p.1 := by omega
          rw [← this]
          exact List.mem_map_of_mem Prod.fst hr)
      rw [apply_statics_untouched width rest _ (p.1 - 1) "" huntouched]
      unfold set_cell
      rw [if_pos ⟨h1, h2⟩]
      apply getD_set_self
      omega
    · show (apply_statics width rest (set_cell out q.1 q.2 width)).getD (p.1 - 1) ""
        = p.2
      apply ih (set_cell out q.1 q.2 width) hndtail p hptail h1 h2
      unfold set_cell
      by_cases hg : 1 ≤ q.1 ∧ q.1 ≤ width
      · rw [if_pos hg, List.length_set]
        exact hwl
      · rw [if_neg hg]
        exact hwl

theorem apply_mapping_untouched (row : List String) (width : Nat) :
    ∀ mapping out out' j d, (∀ p ∈ mapping, p.2 ≠ j + 1) →
      apply_mapping row width mapping out = some out' →
      out'.getD j d = out.getD j d := by
  intro mapping
  induction mapping with
  | nil =>
    intro out out' j d _ heq
    cases heq
    rfl
  | cons p rest ih =>
    intro out out' j d h heq
    have hp := h p (List.mem_cons_self p rest)
    have hrest : ∀ q ∈ rest, q.2 ≠ j + 1 :=
      fun q hq => h q (List.mem_cons_of_mem p hq)
    unfold apply_mapping at heq
    by_cases hg : 1 ≤ p.2 ∧ p.2 ≤ width
    · simp only [hg, if_true] at heq
      cases hv : map_src_val row p.1 with
      | none => rw [hv] at heq; cases heq
      | some v =>
        rw [hv] at heq
        have := ih (out.set (p.2 - 1) v) out' j d hrest heq
        rw [this]
        have hne : p.2 - 1 ≠ j := by omega
        exact getD_set_ne out v d (p.2 - 1) j hne
    · simp only [hg, if_false] at heq
      exact ih out out' j d hrest heq

theorem apply_mapping_writes (row : List String) (width : Nat) :
    ∀ mapping out out', width ≤ out.length → (mapping.map Prod.snd).Nodup →
      apply_mapping row width mapping out = some out' →
      ∀ p ∈ mapping, ∀ v, 1 ≤ p.2 → p.2 ≤ width →
        map_src_val row p.1 = some v → out'.getD (p.2 - 1) "" = v := by
  intro mapping
  induction mapping with
  | nil => intro out out' _ _ _ p hp; cases hp
  | cons q rest ih =>
    intro out out' hw hnd heq p hp v h1 h2 hv
    have hndtail : (rest.map Prod.snd).Nodup := (List.nodup_cons.mp hnd).2
    have hhd : q.2 ∉ rest.map Prod.snd := (List.nodup_cons.mp hnd).1
    unfold apply_mapping at heq
    rcases List.mem_cons.mp hp with hqp | hptail
    · subst hqp
      rw [if_pos ⟨h1, h2⟩, hv] at heq
      have huntouched : ∀ r ∈ rest, r.2 ≠ (p.2 - 1) + 1 := by
        intro r hr hcontra
        exact hhd (by
          have : r.2 = p.2 := by omega
          rw [← this]
          exact List.mem_map_of_mem Prod.snd hr)
      have := apply_mapping_untouched row width rest (out.set (p.2 - 1) v) out'
        (p.2 - 1) "" huntouched heq
      rw [this]
      apply getD_set_self
      omega
    · by_cases hg : 1 ≤ q.2 ∧ q.2 ≤ width
      · rw [if_pos hg] at heq
        cases hqv : map_src_val row q.1 with
        | none => rw [hqv] at heq; cases heq
        | some w =>
          rw [hqv] at heq
          have hw' : width ≤ (out.set (q.2 - 1) w).length := by
            rw [List.length_set]; exact hw
          exact ih (out.set (q.2 - 1) w) out' hw' hndtail heq p hptail v h1 h2 hv
      · rw [if_neg hg] at heq
        exact ih out out' hw hndtail heq p hptail v h1 h2 hv

set_option maxRecDepth 4000 in
/-- C4 counterexample: for the mapping with source position 0 and an empty
source row, the guard `s_idx - 1 < len(row)` is `-1 < 0`, which holds, and
`row[-1]` on the empty list raises `IndexError` - so the function does NOT
return a `width`-long row and does NOT avoid raising, contrary to the
claim's "for every source row (of any length), mapping, statics, and
width ... never raises an exception". -/
theorem C4_counterexample :
    map_row_to_master [] [(0, 1)] [] 16 = none := by
  decide

/-- C4 (amended): for every source row, statics, and width, and every
mapping whose SOURCE positions are at least 1 (as all configured mappings
are), `map_row_to_master` raises no exception and returns a row of exactly
`width` cells, written statics first and mapped fields second:
- a position targeted by no static and no mapping entry holds `""`;
- a static entry's in-width destination holds its constant value whenever
  no mapping entry targets it (statics come from a Python dict, so their
  destination keys are distinct - the `Nodup` premise of that conjunct);
- each in-width mapping entry's destination holds the value read from the
  source row - `""` whenever the source position lies beyond the row's
  length - stated for mappings with distinct destinations (mapping KEYS
  are source positions, so Python permits repeated destinations, in which
  case the later entry wins and no single entry determines the cell). -/
theorem C4_row_mapping (row : List String) (mapping : List (Nat × Nat))
    (statics : List (Nat × String)) (width : Nat)
    (hpos : ∀ p ∈ mapping, 1 ≤ p.1) :
    ∃ out, map_row_to_master row mapping statics width = some out
      ∧ out.length = width
      ∧ (∀ j, j < width → (∀ p ∈ statics, p.1 ≠ j + 1) →
          (∀ p ∈ mapping, p.2 ≠ j + 1) → out.getD j "" = "")
      ∧ ((statics.map Prod.fst).Nodup →
          ∀ p ∈ statics, 1 ≤ p.1 → p.1 ≤ width → (∀ q ∈ mapping, q.2 ≠ p.1) →
            out.getD (p.1 - 1) "" = p.2)
      ∧ ((mapping.map Prod.snd).Nodup →
          (∀ p ∈ mapping, ∀ v, 1 ≤ p.2 → p.2 ≤ width →
              map_src_val row p.1 = some v → out.getD (p.2 - 1) "" = v)
          ∧ (∀ p ∈ mapping, 1 ≤ p.2 → p.2 ≤ width → row.length ≤ p.1 - 1 →
              out.getD (p.2 - 1) "" = "")) := by
  obtain ⟨out, hsome, hlen⟩ := apply_mapping_pos_some row width mapping
    (apply_statics width statics (List.replicate width "")) hpos
  have hw : width ≤ (apply_statics width statics (List.replicate width "")).length := by
    rw [apply_statics_length, List.length_replicate]
  refine ⟨out, hsome, ?_, ?_, ?_, ?_⟩
  · rw [hlen, apply_statics_length, List.length_replicate]
  · intro j hj hs hm
    have h1 := apply_mapping_untouched row width mapping _ out j "" hm hsome
    rw [h1, apply_statics_untouched width statics _ j "" hs]
    exact getD_replicate "" width j
  · intro hnds p hp h1 h2 hnm
    have huntouched : ∀ q ∈ mapping, q.2 ≠ (p.1 - 1) + 1 := by
      intro q hq
      have := hnm q hq
      omega
    have hm1 := apply_mapping_untouched row width mapping _ out (p.1 - 1) ""
      huntouched hsome
    rw [hm1]
    exact apply_statics_writes width statics (List.replicate width "") hnds
      p hp h1 h2 (by rw [List.length_replicate])
  · intro hnd
    constructor
    · exact fun p hp v h1 h2 hv =>
        apply_mapping_writes row width mapping _ out hw hnd hsome p hp v h1 h2 hv
    · intro p hp h1 h2 hout
      have hp1 : 1 ≤ p.1 := hpos p hp
      have hv : map_src_val row p.1 = some "" := by
        have h0 : p.1 ≠ 0 := Nat.pos_iff_ne_zero.mp hp1
        have : ¬ p.1 - 1 < row.length := by omega
        simp [map_src_val, h0, this]
      exact apply_mapping_writes row width mapping _ out hw hnd hsome p hp "" h1 h2 hv

/-- C4 witness: the LinkedIn-flow mapping and statics applied to a two-cell
row with destination width 16; statics put "LinkedIn - LX" at 5 and "DD" at
7 (no mapping entry targets either), and source position 5 is beyond the
row, so destination 8 gets the empty string. -/
theorem C4_row_mapping_witness :
    ∃ out, map_row_to_master ["u", "t"] [(1, 1), (2, 6), (3, 2), (5, 8), (4, 3)]
        [(5, "LinkedIn - LX"), (7, "DD")] 16 = some out
      ∧ out.length = 16
      ∧ (∀ j, j < 16 → (∀ p ∈ [((5 : Nat), "LinkedIn - LX"), (7, "DD")], p.1 ≠ j + 1) →
          (∀ p ∈ [((1 : Nat), (1 : Nat)), (2, 6), (3, 2), (5, 8), (4, 3)], p.2 ≠ j + 1) →
          out.getD j "" = "")
      ∧ ((([((5 : Nat), "LinkedIn - LX"), (7, "DD")]).map Prod.fst).Nodup →
          ∀ p ∈ [((5 : Nat), "LinkedIn - LX"), (7, "DD")], 1 ≤ p.1 → p.1 ≤ 16 →
            (∀ q ∈ [((1 : Nat), (1 : Nat)), (2, 6), (3, 2), (5, 8), (4, 3)], q.2 ≠ p.1) →
            out.getD (p.1 - 1) "" = p.2)
      ∧ ((([((1 : Nat), (1 : Nat)), (2, 6), (3, 2), (5, 8), (4, 3)]).map Prod.snd).Nodup →
          (∀ p ∈ [((1 : Nat), (1 : Nat)), (2, 6), (3, 2), (5, 8), (4, 3)], ∀ v, 1 ≤ p.2 → p.2 ≤ 16 →
              map_src_val ["u", "t"] p.1 = some v → out.getD (p.2 - 1) "" = v)
          ∧ (∀ p ∈ [((1 : Nat), (1 : Nat)), (2, 6), (3, 2), (5, 8), (4, 3)], 1 ≤ p.2 → p.2 ≤ 16 →
              (["u", "t"] : List String).length ≤ p.1 - 1 → out.getD (p.2 - 1) "" = "")) :=
  C4_row_mapping ["u", "t"] [(1, 1), (2, 6), (3, 2), (5, 8), (4, 3)]
    [(5, "LinkedIn - LX"), (7, "DD")] 16 (by decide)

/-! ### C5: retry wrappers -/

theorem retry_attempts_congr {α : Type} (env env' : Nat → Outcome α) :
    ∀ n k, (∀ j, k ≤ j → j ≤ k + n → env j = env' j) →
      retry_attempts env k n = retry_attempts env' k n := by
  intro n
  induction n with
  | zero =>
    intro k h
    unfold retry_attempts
    rw [h k (Nat.le_refl k) (Nat.le_add_right k 0)]
  | succ m ih =>
    intro k h
    unfold retry_attempts
    rw [h k (Nat.le_refl k) (Nat.le_add_right k (m + 1))]
    cases env' k with
    | ok v => rfl
    | apiErr msg =>
      show (if is_retryable msg = true then retry_attempts env (k + 1) m
            else Except.error msg)
        = (if is_retryable msg = true then retry_attempts env' (k + 1) m
            else Except.error msg)
      by_cases hr : is_retryable msg = true
      · rw [if_pos hr, if_pos hr]
        exact ih (k + 1) (fun j h1 h2 => h j (by omega) (by omega))
      · rw [if_neg hr, if_neg hr]
    | otherErr msg => rfl

theorem retry_attempts_all_retryable {α : Type} (env : Nat → Outcome α) :
    ∀ n k, (∀ j, k ≤ j → j < k + n →
        ∃ m, env j = Outcome.apiErr m ∧ is_retryable m = true) →
      retry_attempts env k n = retry_attempts env (k + n) 0 := by
  intro n
  induction n with
  | zero => intro k _; rfl
  | succ m ih =>
    intro k h
    obtain ⟨msg, hmsg, hr⟩ := h k (Nat.le_refl k) (by omega)
    unfold retry_attempts
    rw [hmsg]
    show (if is_retryable msg = true then retry_attempts env (k + 1) m
          else Except.error msg) = _
    rw [if_pos hr]
    have hrec := ih (k + 1) (fun j h1 h2 => h j (by omega) (by omega))
    have heq : k + 1 + m = k + (m + 1) := by omega
    rw [heq] at hrec
    exact hrec

/-- C5 counterexample: six consecutive retryable errors exhaust the
`range(retries)` loop, after which - contrary to the claim that the
original retryable error is then surfaced with no further attempt - the
code issues a seventh, bare attempt and returns ITS outcome, here a
success. -/
theorem C5_counterexample :
    values_get_safe (fun k => if k < 6 then Outcome.apiErr "quota" else Outcome.ok 7) 6
        = Except.ok 7
    ∧ (Except.ok 7 : Except String Nat) ≠ Except.error "quota" := by
  exact ⟨rfl, fun h => Except.noConfusion h⟩

/-- C5 (amended): every wrapped remote call is attempted at most
`retries + 1` times (the result depends only on the outcomes of attempts
`0..retries`); an error not matching the retryable signatures - a
non-retryable `APIError` or any non-`APIError` exception - is raised
immediately on the first attempt; and when all `retries` guarded attempts
fail with retryable errors, the loop exhausts and ONE final unguarded
attempt is issued, whose outcome (success, or its own - fresh - error) is
what the caller sees; `append_rows_safe` short-circuits on an empty batch
and otherwise behaves identically. -/
theorem C5_retry_contract {α : Type} (env : Nat → Outcome α) (retries : Nat) :
    (∀ env' : Nat → Outcome α, (∀ j, j ≤ retries → env j = env' j) →
        values_get_safe env retries = values_get_safe env' retries)
    ∧ (∀ m, env 0 = Outcome.apiErr m → is_retryable m = false →
        values_get_safe env retries = Except.error m)
    ∧ (∀ m, env 0 = Outcome.otherErr m →
        values_get_safe env retries = Except.error m)
    ∧ ((∀ j, j < retries → ∃ m, env j = Outcome.apiErr m ∧ is_retryable m = true) →
        values_get_safe env retries = retry_attempts env retries 0)
    ∧ (∀ rows envA retriesA, rows ≠ [] →
        append_rows_safe rows envA retriesA = retry_attempts envA 0 retriesA) := by
  refine ⟨?_, ?_, ?_, ?_, ?_⟩
  · intro env' h
    exact retry_attempts_congr env env' retries 0
      (fun j h1 h2 => h j (by omega))
  · intro m hm hr
    unfold values_get_safe
    cases retries with
    | zero => unfold retry_attempts; rw [hm]
    | succ n =>
      unfold retry_attempts
      rw [hm]
      show (if is_retryable m = true then retry_attempts env (0 + 1) n
            else Except.error m) = Except.error m
      rw [if_neg (by simp [hr])]
  · intro m hm
    unfold values_get_safe
    cases retries with
    | zero => unfold retry_attempts; rw [hm]
    | succ n => unfold retry_attempts; rw [hm]
  · intro h
    unfold values_get_safe
    have := retry_attempts_all_retryable env retries 0
      (fun j h1 h2 => h j (by omega))
    rw [this]
    congr 1
    omega
  · intro rows envA retriesA hne
    unfold append_rows_safe
    rw [if_neg (by simpa using hne)]

/-- C5 witness: instantiating the amended contract - a non-`APIError`
failure on the first attempt is raised immediately. -/
theorem C5_retry_contract_witness :
    values_get_safe (fun _ => (Outcome.otherErr "boom" : Outcome Nat)) 6
      = Except.error "boom" :=
  (C5_retry_contract (fun _ => (Outcome.otherErr "boom" : Outcome Nat)) 6).2.2.1
    "boom" rfl

/-! ### C1/C3/C9: the row loop (pure view) -/

theorem process_flow_rows_spec (cfg : Cfg) (baseline : Bool) (width : Nat) :
    ∀ rows pos app flags sc,
      process_flow_rows cfg baseline width rows pos = some (app, flags, sc) →
      sc = rows.length
      ∧ (∀ p ∈ flags, pos ≤ p)
      ∧ (∀ j, j < rows.length →
          ∃ act, scan_row cfg baseline width (rows.getD j []) = some act
            ∧ (act = RowAction.skip ↔ (pos + j) ∉ flags))
      ∧ (∀ out ∈ app, ∃ j, j < rows.length ∧ (pos + j) ∈ flags
            ∧ scan_row cfg baseline width (rows.getD j []) = some (RowAction.flagAppend out)) := by
  intro rows
  induction rows with
  | nil =>
    intro pos app flags sc heq
    simp only [process_flow_rows, Option.some.injEq, Prod.mk.injEq] at heq
    obtain ⟨ha, hf, hs⟩ := heq
    subst ha; subst hf; subst hs
    refine ⟨rfl, ?_, ?_, ?_⟩
    · intro p hp; cases hp
    · intro j hj; exact absurd hj (Nat.not_lt_zero j)
    · intro out hout; cases hout
  | cons row rest ih =>
    intro pos app flags sc heq
    rw [process_flow_rows] at heq
    cases hact : scan_row cfg baseline width row with
    | none => rw [hact] at heq; cases heq
    | some act =>
      rw [hact] at heq
      cases hrec : process_flow_rows cfg baseline width rest (pos + 1) with
      | none => rw [hrec] at heq; cases heq
      | some trip =>
        obtain ⟨app', flags', sc'⟩ := trip
        rw [hrec] at heq
        obtain ⟨ih1, ih2, ih3, ih4⟩ := ih (pos + 1) app' flags' sc' hrec
        cases act with
        | skip =>
          simp only [Option.some.injEq, Prod.mk.injEq] at heq
          obtain ⟨ha, hf, hs⟩ := heq
          subst ha; subst hf; subst hs
          refine ⟨by rw [ih1]; rfl, ?_, ?_, ?_⟩
          · exact fun p hp => Nat.le_of_succ_le (ih2 p hp)
          · intro j hj
            cases j with
            | zero =>
              refine ⟨RowAction.skip, hact, ?_⟩
              constructor
              · intro _ hmem
                have := ih2 (pos + 0) hmem
                omega
              · intro _; rfl
            | succ j' =>
              obtain ⟨act', hscan, hiff⟩ := ih3 j' (by
                have : (row :: rest).length = rest.length + 1 := rfl
                omega)
              refine ⟨act', hscan, ?_⟩
              have harith : pos + (j' + 1) = (pos + 1) + j' := by omega
              rw [harith]
              exact hiff
          · intro out hout
            obtain ⟨j', hj', hmem, hscan⟩ := ih4 out hout
            refine ⟨j' + 1, ?_, ?_, hscan⟩
            · have : (row :: rest).length = rest.length + 1 := rfl
              omega
            · have harith : pos + (j' + 1) = (pos + 1) + j' := by omega
              rw [harith]
              exact hmem
        | flagOnly =>
          simp only [Option.some.injEq, Prod.mk.injEq] at heq
          obtain ⟨ha, hf, hs⟩ := heq
          subst ha; subst hf; subst hs
          refine ⟨by rw [ih1]; rfl, ?_, ?_, ?_⟩
          · intro p hp
            rcases List.mem_cons.mp hp with hp | hp
            · omega
            · exact Nat.le_of_succ_le (ih2 p hp)
          · intro j hj
            cases j with
            | zero =>
              refine ⟨RowAction.flagOnly, hact, ?_⟩
              constructor
              · intro h; cases h
              · intro hnot
                exact absurd (by
                  have : pos + 0 = pos := by omega
                  rw [this]
                  exact List.mem_cons_self pos flags') hnot
            | succ j' =>
              obtain ⟨act', hscan, hiff⟩ := ih3 j' (by
                have : (row :: rest).length = rest.length + 1 := rfl
                omega)
              refine ⟨act', hscan, ?_⟩
              rw [hiff]
              constructor
              · intro hnot hmem
                rcases List.mem_cons.mp hmem with hm | hm
                · omega
                · have harith : (pos + 1) + j' = pos + (j' + 1) := by omega
                  rw [harith] at hnot
                  exact hnot hm
              · intro hnot hmem
                have harith : (pos + 1) + j' = pos + (j' + 1) := by omega
                rw [harith] at hmem
                exact hnot (List.mem_cons_of_mem pos hmem)
          · intro out hout
            obtain ⟨j', hj', hmem, hscan⟩ := ih4 out hout
            refine ⟨j' + 1, ?_, ?_, hscan⟩
            · have : (row :: rest).length = rest.length + 1 := rfl
              omega
            · have harith : pos + (j' + 1) = (pos + 1) + j' := by omega
              rw [harith]
              exact List.mem_cons_of_mem pos hmem
        | flagAppend out0 =>
          simp only [Option.some.injEq, Prod.mk.injEq] at heq
          obtain ⟨ha, hf, hs⟩ := heq
          subst ha; subst hf; subst hs
          refine ⟨by rw [ih1]; rfl, ?_, ?_, ?_⟩
          · intro p hp
            rcases List.mem_cons.mp hp with hp | hp
            · omega
            · exact Nat.le_of_succ_le (ih2 p hp)
          · intro j hj
            cases j with
            | zero =>
              refine ⟨RowAction.flagAppend out0, hact, ?_⟩
              constructor
              · intro h; cases h
              · intro hnot
                exact absurd (by
                  have : pos + 0 = pos := by omega
                  rw [this]
                  exact List.mem_cons_self pos flags') hnot
            | succ j' =>
              obtain ⟨act', hscan, hiff⟩ := ih3 j' (by
                have : (row :: rest).length = rest.length + 1 := rfl
                omega)
              refine ⟨act', hscan, ?_⟩
              rw [hiff]
              constructor
              · intro hnot hmem
                rcases List.mem_cons.mp hmem with hm | hm
                · omega
                · have harith : (pos + 1) + j' = pos + (j' + 1) := by omega
                  rw [harith] at hnot
                  exact hnot hm
              · intro hnot hmem
                have harith : (pos + 1) + j' = pos + (j' + 1) := by omega
                rw [harith] at hmem
                exact hnot (List.mem_cons_of_mem pos hmem)
          · intro out hout
            rcases List.mem_cons.mp hout with hout | hout
            · subst hout
              refine ⟨0, Nat.succ_pos rest.length, ?_, hact⟩
              have : pos + 0 = pos := by omega
              rw [this]
              exact List.mem_cons_self pos flags'
            · obtain ⟨j', hj', hmem, hscan⟩ := ih4 out hout
              refine ⟨j' + 1, ?_, ?_, hscan⟩
              · have : (row :: rest).length = rest.length + 1 := rfl
                omega
              · have harith : pos + (j' + 1) = (pos + 1) + j' := by omega
                rw [harith]
                exact List.mem_cons_of_mem pos hmem

theorem setPad_length (v : String) :
    ∀ (n : Nat) (l : List String), (setPad l n v).length = max (n + 1) l.length := by
  intro n
  induction n with
  | zero =>
    intro l
    cases l with
    | nil => rfl
    | cons h t =>
      show t.length + 1 = max 1 (t.length + 1)
      omega
  | succ m ih =>
    intro l
    cases l with
    | nil =>
      show (setPad [] m v).length + 1 = max (m + 2) 0
      rw [ih []]
      simp only [List.length_nil]
      omega
    | cons h t =>
      show (setPad t m v).length + 1 = max (m + 2) (t.length + 1)
      rw [ih t]
      omega

theorem setPad_getD_self (v : String) :
    ∀ (n : Nat) (l : List String), (setPad l n v).getD n "" = v := by
  intro n
  induction n with
  | zero => intro l; cases l <;> rfl
  | succ m ih =>
    intro l
    cases l with
    | nil => exact ih []
    | cons h t => exact ih t

theorem setPad_getD_ne (v : String) :
    ∀ (n : Nat) (l : List String) (m : Nat), m ≠ n →
      (setPad l n v).getD m "" = l.getD m "" := by
  intro n
  induction n with
  | zero =>
    intro l m hm
    cases l with
    | nil =>
      cases m with
      | zero => exact absurd rfl hm
      | succ m' => rfl
    | cons h t =>
      cases m with
      | zero => exact absurd rfl hm
      | succ m' => rfl
  | succ k ih =>
    intro l m hm
    cases l with
    | nil =>
      cases m with
      | zero => rfl
      | succ m' => exact ih [] m' (fun h => hm (by rw [h]))
    | cons h t =>
      cases m with
      | zero => rfl
      | succ m' => exact ih t m' (fun h => hm (by rw [h]))

theorem set_flag_cell_length (row : List String) (sc : Nat) (hsc : 1 ≤ sc) :
    (set_flag_cell row sc).length = max sc row.length := by
  unfold set_flag_cell
  rw [setPad_length]
  omega

theorem pyStrip_one : pyStrip "1" = "1" := by decide

theorem req_missing_preserved (row : List String) (sc idx : Nat) (hsc : 1 ≤ sc)
    (h : req_missing row idx = some false) :
    req_missing (set_flag_cell row sc) idx = some false := by
  have hlen : (set_flag_cell row sc).length = max sc row.length :=
    set_flag_cell_length row sc hsc
  by_cases h0 : idx = 0
  · subst h0
    unfold req_missing at h ⊢
    rw [if_pos rfl] at h ⊢
    unfold pyLast at h ⊢
    by_cases hemp : row.length = 0
    · rw [if_pos hemp] at h
      cases h
    · rw [if_neg hemp] at h
      simp only [Option.map_some'] at h
      have hne : ¬ (set_flag_cell row sc).length = 0 := by omega
      rw [if_neg hne]
      simp only [Option.map_some']
      by_cases hcase : row.length ≤ sc
      · have hidx : (set_flag_cell row sc).length - 1 = sc - 1 := by omega
        rw [hidx]
        unfold set_flag_cell
        rw [setPad_getD_self]
        rw [show (pyStrip "1" == "") = false from by decide]
      · have hidx : (set_flag_cell row sc).length - 1 = row.length - 1 := by omega
        rw [hidx]
        unfold set_flag_cell
        rw [setPad_getD_ne _ _ _ _ (by omega)]
        exact h
  · unfold req_missing at h ⊢
    rw [if_neg h0] at h ⊢
    by_cases hout : row.length ≤ idx - 1
    · rw [if_pos hout] at h
      cases h
    · rw [if_neg hout] at h
      have hout' : ¬ (set_flag_cell row sc).length ≤ idx - 1 := by omega
      rw [if_neg hout']
      by_cases hcol : idx - 1 = sc - 1
      · rw [hcol]
        unfold set_flag_cell
        rw [setPad_getD_self]
        rw [show (pyStrip "1" == "") = false from by decide]
      · unfold set_flag_cell
        rw [setPad_getD_ne _ _ _ _ hcol]
        exact h

theorem row_bad_iff_forall (row : List String) :
    ∀ req : List Nat, row_bad row req = some false ↔
      (∀ idx ∈ req, req_missing row idx = some false) := by
  intro req
  induction req with
  | nil =>
    constructor
    · intro _ idx hidx; cases hidx
    · intro _; rfl
  | cons idx rest ih =>
    constructor
    · intro h
      unfold row_bad at h
      cases hr : req_missing row idx with
      | none => rw [hr] at h; cases h
      | some b =>
        rw [hr] at h
        cases b with
        | true => cases h
        | false =>
          intro j hj
          rcases List.mem_cons.mp hj with hj | hj
          · subst hj; exact hr
          · exact (ih.mp h) j hj
    · intro h
      unfold row_bad
      rw [h idx (List.mem_cons_self idx rest)]
      exact ih.mpr (fun j hj => h j (List.mem_cons_of_mem idx hj))

theorem synced_val_flagged (row : List String) (sc : Nat) (hsc : 1 ≤ sc) :
    synced_val (set_flag_cell row sc) sc = some "1" := by
  have h0 : ¬ sc = 0 := by omega
  have hlt : sc - 1 < (set_flag_cell row sc).length := by
    rw [set_flag_cell_length row sc hsc]
    omega
  unfold synced_val
  rw [if_neg h0, if_pos hlt]
  unfold set_flag_cell
  rw [setPad_getD_self, pyStrip_one]

theorem scan_row_normal_not_flagOnly (cfg : Cfg) (width : Nat) (row : List String) :
    scan_row cfg false width row ≠ some RowAction.flagOnly := by
  intro h
  unfold scan_row at h
  cases hb : row_bad row cfg.required with
  | none => rw [hb] at h; exact Option.noConfusion h
  | some b =>
    rw [hb] at h
    cases b with
    | true => exact RowAction.noConfusion (Option.some.inj h)
    | false =>
      cases hs : synced_val row cfg.sync_col with
      | none => rw [hs] at h; exact Option.noConfusion h
      | some s =>
        rw [hs] at h
        have h2 : (if s ≠ "" then some RowAction.skip
            else (map_row_to_master row cfg.mapping cfg.statics width).map
              RowAction.flagAppend) = some RowAction.flagOnly := h
        by_cases hse : s ≠ ""
        · rw [if_pos hse] at h2
          exact RowAction.noConfusion (Option.some.inj h2)
        · rw [if_neg hse] at h2
          cases hm : map_row_to_master row cfg.mapping cfg.statics width with
          | none => rw [hm] at h2; exact Option.noConfusion h2
          | some o =>
            rw [hm] at h2
            exact RowAction.noConfusion (Option.some.inj h2)

theorem scan_row_flagged_skip (cfg : Cfg) (width width' : Nat) (row out : List String)
    (hsc : 1 ≤ cfg.sync_col)
    (h : scan_row cfg false width row = some (RowAction.flagAppend out)) :
    scan_row cfg false width' (set_flag_cell row cfg.sync_col) = some RowAction.skip := by
  unfold scan_row at h
  cases hb : row_bad row cfg.required with
  | none => rw [hb] at h; exact Option.noConfusion h
  | some b =>
    rw [hb] at h
    cases b with
    | true => exact RowAction.noConfusion (Option.some.inj h)
    | false =>
      have hreq := (row_bad_iff_forall row cfg.required).mp hb
      have hb' : row_bad (set_flag_cell row cfg.sync_col) cfg.required = some false :=
        (row_bad_iff_forall _ cfg.required).mpr
          (fun idx hidx => req_missing_preserved row cfg.sync_col idx hsc (hreq idx hidx))
      unfold scan_row
      rw [hb', synced_val_flagged row cfg.sync_col hsc]
      rfl

theorem process_flagged_all_skip (cfg : Cfg) (width : Nat) (hsc : 1 ≤ cfg.sync_col) :
    ∀ rows pos app flags sc F,
      process_flow_rows cfg false width rows pos = some (app, flags, sc) →
      (∀ p, pos ≤ p → (p ∈ F ↔ p ∈ flags)) →
      process_flow_rows cfg false width (apply_flags cfg.sync_col F rows pos) pos
        = some ([], [], rows.length) := by
  intro rows
  induction rows with
  | nil => intro pos app flags sc F _ _; rfl
  | cons row rest ih =>
    intro pos app flags sc F heq hF
    rw [process_flow_rows] at heq
    cases hact : scan_row cfg false width row with
    | none => rw [hact] at heq; cases heq
    | some act =>
      rw [hact] at heq
      cases hrec : process_flow_rows cfg false width rest (pos + 1) with
      | none => rw [hrec] at heq; cases heq
      | some trip =>
        obtain ⟨app', flags', sc'⟩ := trip
        rw [hrec] at heq
        have hlb := (process_flow_rows_spec cfg false width rest (pos + 1)
          app' flags' sc' hrec).2.1
        cases act with
        | flagOnly => exact absurd hact (scan_row_normal_not_flagOnly cfg width row)
        | skip =>
          simp only [Option.some.injEq, Prod.mk.injEq] at heq
          obtain ⟨ha, hf, hs⟩ := heq
          subst hf
          have hposF : pos ∉ F := by
            intro hmem
            have hmem' := (hF pos (Nat.le_refl pos)).mp hmem
            have := hlb pos hmem'
            omega
          have happ : apply_flags cfg.sync_col F (row :: rest) pos
              = row :: apply_flags cfg.sync_col F rest (pos + 1) := by
            rw [apply_flags, if_neg hposF]
          rw [happ, process_flow_rows, hact,
            ih (pos + 1) app' flags' sc' F hrec (fun p hp => hF p (by omega))]
          rfl
        | flagAppend out0 =>
          simp only [Option.some.injEq, Prod.mk.injEq] at heq
          obtain ⟨ha, hf, hs⟩ := heq
          have hposF : pos ∈ F := by
            refine (hF pos (Nat.le_refl pos)).mpr ?_
            rw [← hf]
            exact List.mem_cons_self pos flags'
          have happ : apply_flags cfg.sync_col F (row :: rest) pos
              = set_flag_cell row cfg.sync_col
                  :: apply_flags cfg.sync_col F rest (pos + 1) := by
            rw [apply_flags, if_pos hposF]
          have hFrest : ∀ p, pos + 1 ≤ p → (p ∈ F ↔ p ∈ flags') := by
            intro p hp
            rw [hF p (by omega), ← hf]
            constructor
            · intro hm
              rcases List.mem_cons.mp hm with hm | hm
              · omega
              · exact hm
            · exact List.mem_cons_of_mem pos
          rw [happ, process_flow_rows,
            scan_row_flagged_skip cfg width width row out0 hsc hact,
            ih (pos + 1) app' flags' sc' F hrec hFrest]
          rfl

/-- C1: idempotence of the engine.  If a run of the (non-baseline) row loop
over a source window completes - returning the appended rows `app`, the
flag write-backs `flags`, and the scanned count - and those flag
write-backs are applied to the window (every other cell unchanged), then a
second run over the updated window appends NOTHING (and issues no new flag
writes): every previously appended row now carries `"1"` in the reserved
sync column and is dropped by the already-flagged check, and every other
row is skipped exactly as before. -/
theorem C1_idempotence (cfg : Cfg) (width : Nat) (rows : List (List String))
    (pos : Nat) (app : List (List String)) (flags : List Nat) (sc : Nat)
    (hsc : 1 ≤ cfg.sync_col)
    (h1 : process_flow_rows cfg false width rows pos = some (app, flags, sc)) :
    process_flow_rows cfg false width
        (apply_flags cfg.sync_col flags rows pos) pos
      = some ([], [], rows.length) :=
  process_flagged_all_skip cfg width hsc rows pos app flags sc flags h1
    (fun _ _ => Iff.rfl)

/-- C1 witness: a one-row window whose row is appended and flagged by the
first run; the second run over the flagged window appends zero rows. -/
theorem C1_idempotence_witness :
    process_flow_rows ⟨[1], [(1, 1)], [], 2⟩ false 1
        (apply_flags 2 [4] [["x"]] 4) 4 = some ([], [], 1) :=
  C1_idempotence ⟨[1], [(1, 1)], [], 2⟩ 1 [["x"]] 4 [["x"]] [4] 1
    (by decide) (by decide)

/-- C3: required-field gating.  In every run (either mode), a scanned row
with a missing required field - some required position out of range or
empty after trimming - is counted as scanned but is never flagged, and
every appended destination row originates from a DIFFERENT source row, one
that was flagged and mapped; so the bad row is never mapped, never
appended, and never given a sync flag. -/
theorem C3_required_gating (cfg : Cfg) (baseline : Bool) (width : Nat)
    (rows : List (List String)) (pos i : Nat)
    (app : List (List String)) (flags : List Nat) (sc : Nat)
    (hi : i < rows.length)
    (hbad : row_bad (rows.getD i []) cfg.required = some true)
    (hrun : process_flow_rows cfg baseline width rows pos = some (app, flags, sc)) :
    sc = rows.length
    ∧ (pos + i) ∉ flags
    ∧ (∀ out ∈ app, ∃ j, j < rows.length ∧ j ≠ i ∧ (pos + j) ∈ flags
        ∧ scan_row cfg baseline width (rows.getD j []) = some (RowAction.flagAppend out)) := by
  obtain ⟨h1, _, h3, h4⟩ :=
    process_flow_rows_spec cfg baseline width rows pos app flags sc hrun
  have hscan : scan_row cfg baseline width (rows.getD i []) = some RowAction.skip := by
    unfold scan_row
    rw [hbad]
    rfl
  obtain ⟨act, hact, hiff⟩ := h3 i hi
  have hActSkip : act = RowAction.skip := by
    rw [hact] at hscan
    exact Option.some.inj hscan
  refine ⟨h1, hiff.mp hActSkip, ?_⟩
  intro out hout
  obtain ⟨j, hj, hmem, hscanj⟩ := h4 out hout
  refine ⟨j, hj, ?_, hmem, hscanj⟩
  intro hji
  subst hji
  rw [hscan] at hscanj
  cases hscanj

/-- C3 witness: a two-row window where row 0 is missing required column 2;
it is scanned but not flagged, and the only appended row comes from row 1. -/
theorem C3_required_gating_witness :
    (2 : Nat) = ([["x", ""], ["y", "z"]] : List (List String)).length
    ∧ (10 + 0) ∉ [11]
    ∧ (∀ out ∈ [["y"]], ∃ j, j < ([["x", ""], ["y", "z"]] : List (List String)).length
        ∧ j ≠ 0 ∧ (10 + j) ∈ [11]
        ∧ scan_row ⟨[2], [(1, 1)], [], 3⟩ false 1
            (([["x", ""], ["y", "z"]] : List (List String)).getD j [])
          = some (RowAction.flagAppend out)) :=
  C3_required_gating ⟨[2], [(1, 1)], [], 3⟩ false 1 [["x", ""], ["y", "z"]]
    10 0 [["y"]] [11] 2 (by decide) (by decide) (by decide)

/-- C9: the already-seen test accepts ANY non-empty marker.  A row whose
reserved sync-column cell trims to any non-empty string - not only the
`"1"` the engine writes - is never flagged and never appended (every
appended row comes from a different, flagged row), in both modes; an
externally written marker therefore permanently suppresses mirroring. -/
theorem C9_any_marker_suppresses (cfg : Cfg) (baseline : Bool) (width : Nat)
    (rows : List (List String)) (pos i : Nat) (s : String)
    (app : List (List String)) (flags : List Nat) (sc : Nat)
    (hi : i < rows.length)
    (hsync : synced_val (rows.getD i []) cfg.sync_col = some s)
    (hne : s ≠ "")
    (hrun : process_flow_rows cfg baseline width rows pos = some (app, flags, sc)) :
    (pos + i) ∉ flags
    ∧ (∀ out ∈ app, ∃ j, j < rows.length ∧ j ≠ i ∧ (pos + j) ∈ flags
        ∧ scan_row cfg baseline width (rows.getD j []) = some (RowAction.flagAppend out)) := by
  obtain ⟨_, _, h3, h4⟩ :=
    process_flow_rows_spec cfg baseline width rows pos app flags sc hrun
  obtain ⟨act, hact, hiff⟩ := h3 i hi
  have hActSkip : act = RowAction.skip := by
    unfold scan_row at hact
    cases hb : row_bad (rows.getD i []) cfg.required with
    | none => rw [hb] at hact; exact Option.noConfusion hact
    | some b =>
      rw [hb] at hact
      cases b with
      | true => exact (Option.some.inj hact).symm
      | false =>
        rw [hsync] at hact
        have h2 : (if s ≠ "" then some RowAction.skip
            else if baseline = true then some RowAction.flagOnly
            else (map_row_to_master (rows.getD i []) cfg.mapping cfg.statics width).map
              RowAction.flagAppend) = some act := hact
        rw [if_pos hne] at h2
        exact (Option.some.inj h2).symm
  have hskipi : scan_row cfg baseline width (rows.getD i []) = some RowAction.skip := by
    rw [hact, hActSkip]
  refine ⟨hiff.mp hActSkip, ?_⟩
  intro out hout
  obtain ⟨j, hj, hmem, hscanj⟩ := h4 out hout
  refine ⟨j, hj, ?_, hmem, hscanj⟩
  intro hji
  subst hji
  rw [hskipi] at hscanj
  cases hscanj

/-- C9 witness: a row carrying the external marker `"DONE"` in the sync
column is skipped: not re-flagged and not appended. -/
theorem C9_any_marker_suppresses_witness :
    (7 + 0) ∉ ([] : List Nat)
    ∧ (∀ out ∈ ([] : List (List String)), ∃ j, j < ([[ "a", "b", "DONE" ]] : List (List String)).length
        ∧ j ≠ 0 ∧ (7 + j) ∈ ([] : List Nat)
        ∧ scan_row ⟨[1], [(1, 1)], [], 3⟩ false 1
            (([[ "a", "b", "DONE" ]] : List (List String)).getD j [])
          = some (RowAction.flagAppend out)) :=
  C9_any_marker_suppresses ⟨[1], [(1, 1)], [], 3⟩ false 1 [["a", "b", "DONE"]]
    7 0 "DONE" [] [] 1 (by decide) (by decide) (by decide) (by decide)

/-! ### C2/C10: the batched-write trace -/

theorem drop_cons_parts {α : Type} (d : α) :
    ∀ (i : Nat) (l : List α) (a : α) (t : List α), l.drop i = a :: t →
      l.getD i d = a ∧ l.drop (i + 1) = t := by
  intro i
  induction i with
  | zero =>
    intro l a t h
    rw [List.drop_zero] at h
    subst h
    exact ⟨rfl, List.drop_one (a :: t) ▸ rfl⟩
  | succ k ih =>
    intro l a t h
    cases l with
    | nil => cases h
    | cons x xs => exact ih xs a t h

theorem BatchMatches_nil (rows : List (List String)) (startPos : Nat)
    (cfg : Cfg) (width : Nat) : BatchMatches rows startPos cfg width [] [] :=
  ⟨rfl, fun k hk => absurd hk (Nat.not_lt_zero k)⟩

theorem BatchMatches_extend (rows : List (List String)) (startPos : Nat)
    (cfg : Cfg) (width : Nat) (φ : List Nat) (b : List (List String))
    (p : Nat) (out : List String)
    (hM : BatchMatches rows startPos cfg width φ b)
    (hmap : map_row_to_master (rows.getD (p - startPos) [])
        cfg.mapping cfg.statics width = some out) :
    BatchMatches rows startPos cfg width (φ ++ [p]) (b ++ [out]) := by
  obtain ⟨hlen, hall⟩ := hM
  constructor
  · simp [hlen]
  · intro k hk
    rw [List.length_append, List.length_singleton] at hk
    by_cases hklt : k < φ.length
    · rw [getD_append_lt φ [p] 0 k hklt, getD_append_lt b [out] [] k (by omega)]
      exact hall k hklt
    · have hkeq : k = φ.length := by omega
      subst hkeq
      rw [getD_append_len φ p 0]
      have : φ.length = b.length := hlen
      rw [this, getD_append_len b out []]
      exact hmap

theorem scan_row_flagAppend_map (cfg : Cfg) (width : Nat) (row out : List String)
    (h : scan_row cfg false width row = some (RowAction.flagAppend out)) :
    map_row_to_master row cfg.mapping cfg.statics width = some out := by
  unfold scan_row at h
  cases hb : row_bad row cfg.required with
  | none => rw [hb] at h; exact Option.noConfusion h
  | some b =>
    rw [hb] at h
    cases b with
    | true => exact RowAction.noConfusion (Option.some.inj h)
    | false =>
      cases hs : synced_val row cfg.sync_col with
      | none => rw [hs] at h; exact Option.noConfusion h
      | some s =>
        rw [hs] at h
        have h2 : (if s ≠ "" then some RowAction.skip
            else (map_row_to_master row cfg.mapping cfg.statics width).map
              RowAction.flagAppend) = some (RowAction.flagAppend out) := h
        by_cases hse : s ≠ ""
        · rw [if_pos hse] at h2
          exact RowAction.noConfusion (Option.some.inj h2)
        · rw [if_neg hse] at h2
          cases hm : map_row_to_master row cfg.mapping cfg.statics width with
          | none => rw [hm] at h2; exact Option.noConfusion h2
          | some o =>
            rw [hm] at h2
            have ho : RowAction.flagAppend o = RowAction.flagAppend out :=
              Option.some.inj h2
            rw [RowAction.flagAppend.inj ho]

theorem Blocks_append_paired {M : List Nat → List (List String) → Prop} :
    ∀ Δ Δ', Blocks M Δ → Paired M Δ' → Paired M (Δ ++ Δ') := by
  intro Δ Δ' hB
  induction hB with
  | nil => intro h; exact h
  | block ok φ b t hM _ ih =>
    intro h
    exact Paired.block ok φ b (t ++ Δ') hM (ih h)

theorem run_rows_spec (env : TEnv) (cfg : Cfg) (width bsz : Nat)
    (rows : List (List String)) (startPos : Nat) :
    ∀ todo i pos st, todo = rows.drop i → pos = startPos + i →
      BatchMatches rows startPos cfg width st.flags st.batch →
      (∀ st', run_rows env cfg false width bsz todo pos st = Except.ok st' →
        ∃ Δ, st'.events = st.events ++ Δ
          ∧ Blocks (BatchMatches rows startPos cfg width) Δ
          ∧ BatchMatches rows startPos cfg width st'.flags st'.batch)
      ∧ (∀ t, run_rows env cfg false width bsz todo pos st = Except.error t →
        ∃ Δ, t = st.events ++ Δ ∧ Paired (BatchMatches rows startPos cfg width) Δ) := by
  intro todo
  induction todo with
  | nil =>
    intro i pos st _ _ hM
    constructor
    · intro st' h
      have hst : st = st' := Except.ok.inj h
      subst hst
      exact ⟨[], (List.append_nil st.events).symm, Blocks.nil, hM⟩
    · intro t h
      exact Except.noConfusion h
  | cons row rest ih =>
    intro i pos st hdrop hpos hM
    obtain ⟨hhead, htail⟩ := drop_cons_parts ([] : List String) i rows row rest hdrop.symm
    have hmap_at : ∀ out, scan_row cfg false width row = some (RowAction.flagAppend out) →
        map_row_to_master (rows.getD (pos - startPos) [])
            cfg.mapping cfg.statics width = some out := by
      intro out hs
      have hps : pos - startPos = i := by omega
      rw [hps, hhead]
      exact scan_row_flagAppend_map cfg width row out hs
    constructor
    · intro st' h
      rw [run_rows] at h
      cases hact : scan_row cfg false width row with
      | none => rw [hact] at h; exact Except.noConfusion h
      | some act =>
        rw [hact] at h
        cases act with
        | flagOnly => exact absurd hact (scan_row_normal_not_flagOnly cfg width row)
        | skip =>
          exact (ih (i + 1) (pos + 1) { st with scanned := st.scanned + 1 }
            htail.symm (by omega) hM).1 st' h
        | flagAppend out =>
          have hM1 : BatchMatches rows startPos cfg width
              (st.flags ++ [pos]) (st.batch ++ [out]) :=
            BatchMatches_extend rows startPos cfg width st.flags st.batch pos out
              hM (hmap_at out hact)
          dsimp only at h
          by_cases hfull : bsz ≤ st.batch.length + 1
          · rw [if_pos hfull] at h
            cases hfl : flush_full env
                { st with
                  scanned := st.scanned + 1,
                  flags := st.flags ++ [pos], batch := st.batch ++ [out] } with
            | error t => rw [hfl] at h; exact Except.noConfusion h
            | ok st2 =>
              rw [hfl] at h
              unfold flush_full at hfl
              by_cases hak : env.appendOk st.ak = true
              · rw [if_pos hak] at hfl
                have hst2 := Except.ok.inj hfl
                obtain ⟨Δ', hΔ', hB', hM'⟩ :=
                  (ih (i + 1) (pos + 1) st2 htail.symm (by omega)
                    (by rw [← hst2]; exact BatchMatches_nil rows startPos cfg width)).1 st' h
                refine ⟨Ev.append (st.batch ++ [out])
                    :: Ev.flagWrite (env.flagOk st.fk) (st.flags ++ [pos]) :: Δ', ?_, ?_, hM'⟩
                · rw [hΔ', ← hst2]
                  simp [List.append_assoc]
                · exact Blocks.block (env.flagOk st.fk) (st.flags ++ [pos])
                    (st.batch ++ [out]) Δ' hM1 hB'
              · rw [if_neg hak] at hfl
                exact Except.noConfusion hfl
          · rw [if_neg hfull] at h
            exact (ih (i + 1) (pos + 1)
              { st with
                scanned := st.scanned + 1,
                flags := st.flags ++ [pos], batch := st.batch ++ [out] }
              htail.symm (by omega) hM1).1 st' h
    · intro t h
      rw [run_rows] at h
      cases hact : scan_row cfg false width row with
      | none =>
        rw [hact] at h
        have hte : st.events = t := Except.error.inj h
        exact ⟨[], by rw [← hte, List.append_nil], Paired.nil⟩
      | some act =>
        rw [hact] at h
        cases act with
        | flagOnly => exact absurd hact (scan_row_normal_not_flagOnly cfg width row)
        | skip =>
          exact (ih (i + 1) (pos + 1) { st with scanned := st.scanned + 1 }
            htail.symm (by omega) hM).2 t h
        | flagAppend out =>
          have hM1 : BatchMatches rows startPos cfg width
              (st.flags ++ [pos]) (st.batch ++ [out]) :=
            BatchMatches_extend rows startPos cfg width st.flags st.batch pos out
              hM (hmap_at out hact)
          dsimp only at h
          by_cases hfull : bsz ≤ st.batch.length + 1
          · rw [if_pos hfull] at h
            cases hfl : flush_full env
                { st with
                  scanned := st.scanned + 1,
                  flags := st.flags ++ [pos], batch := st.batch ++ [out] } with
            | error tf =>
              rw [hfl] at h
              have hte : tf = t := Except.error.inj h
              unfold flush_full at hfl
              by_cases hak : env.appendOk st.ak = true
              · rw [if_pos hak] at hfl
                exact Except.noConfusion hfl
              · rw [if_neg hak] at hfl
                have herr := Except.error.inj hfl
                refine ⟨[Ev.appendFail (st.batch ++ [out])], ?_,
                  Paired.fail (st.batch ++ [out])⟩
                rw [← hte, ← herr]
            | ok st2 =>
              rw [hfl] at h
              unfold flush_full at hfl
              by_cases hak : env.appendOk st.ak = true
              · rw [if_pos hak] at hfl
                have hst2 := Except.ok.inj hfl
                obtain ⟨Δ', hΔ', hP'⟩ :=
                  (ih (i + 1) (pos + 1) st2 htail.symm (by omega)
                    (by rw [← hst2]; exact BatchMatches_nil rows startPos cfg width)).2 t h
                refine ⟨Ev.append (st.batch ++ [out])
                    :: Ev.flagWrite (env.flagOk st.fk) (st.flags ++ [pos]) :: Δ', ?_, ?_⟩
                · rw [hΔ', ← hst2]
                  simp [List.append_assoc]
                · exact Paired.block (env.flagOk st.fk) (st.flags ++ [pos])
                    (st.batch ++ [out]) Δ' hM1 hP'
              · rw [if_neg hak] at hfl
                exact Except.noConfusion hfl
          · rw [if_neg hfull] at h
            exact (ih (i + 1) (pos + 1)
              { st with
                scanned := st.scanned + 1,
                flags := st.flags ++ [pos], batch := st.batch ++ [out] }
              htail.symm (by omega) hM1).2 t h

theorem final_flush_tail (env : TEnv) (st : TState)
    (M : List Nat → List (List String) → Prop) (hM : M st.flags st.batch)
    (hlen : st.flags.length = st.batch.length) :
    ∃ Δ, evsOf (final_flush env false st) = st.events ++ Δ ∧ Paired M Δ := by
  cases hbatch : st.batch with
  | nil =>
    have hfl : st.flags = [] := by
      cases hf : st.flags with
      | nil => rfl
      | cons a l => rw [hf, hbatch] at hlen; simp at hlen
    have hbe : st.batch.isEmpty = true := by rw [hbatch]; rfl
    have hfe : st.flags.isEmpty = true := by rw [hfl]; rfl
    refine ⟨[], ?_, Paired.nil⟩
    unfold final_flush
    simp only [Bool.false_eq_true, if_false, hbe, if_true, hfe, evsOf,
      List.append_nil]
  | cons b0 bs =>
    have hbe : st.batch.isEmpty = false := by rw [hbatch]; rfl
    have hfe : st.flags.isEmpty = false := by
      cases hf : st.flags with
      | nil => rw [hf, hbatch] at hlen; simp at hlen
      | cons a l => rfl
    have hfne' : ¬ st.flags = [] := by
      intro hnil
      rw [hnil, hbatch] at hlen
      simp at hlen
    by_cases hak : env.appendOk st.ak = true
    · by_cases hfk : env.flagOk st.fk = true
      · refine ⟨[Ev.append st.batch, Ev.flagWrite true st.flags], ?_,
          Paired.block true st.flags st.batch [] hM Paired.nil⟩
        unfold final_flush
        simp only [Bool.false_eq_true, if_false, hbe, hak, hfk, if_true,
          Bool.false_eq_true, evsOf]
        simp [hfne', List.append_assoc]
      · have hfkf : env.flagOk st.fk = false := by
          cases hcase : env.flagOk st.fk
          · rfl
          · exact absurd hcase hfk
        refine ⟨[Ev.append st.batch, Ev.flagWrite false st.flags], ?_,
          Paired.block false st.flags st.batch [] hM Paired.nil⟩
        unfold final_flush
        simp only [Bool.false_eq_true, if_false, hbe, hak, hfkf, if_true, evsOf]
        simp [hfne', List.append_assoc]
    · have hakf : env.appendOk st.ak = false := by
        cases hcase : env.appendOk st.ak
        · rfl
        · exact absurd hcase hak
      refine ⟨[Ev.appendFail st.batch], ?_, Paired.fail st.batch⟩
      unfold final_flush
      simp only [Bool.false_eq_true, if_false, hbe, hakf, evsOf]

/-- C2: ordering invariant of commit.  In normal (non-baseline) mode, for
EVERY environment of append/flag-write outcomes, every batch size, window,
and flow configuration, the trace of remote writes issued by
`process_flow_for_source` - whether the unit completes or raises - consists
of blocks in which the flag write-back for a batch's rows immediately
FOLLOWS the successful destination append of exactly that batch (same
number of rows, the k-th flagged source row mapping to the k-th appended
row), optionally ending in a failed append after which no flag write is
issued; so a dedup-state write never precedes its destination write and is
issued at most once per batch. -/
theorem C2_commit_ordering (env : TEnv) (cfg : Cfg) (width bsz : Nat)
    (rows : List (List String)) (startPos : Nat) :
    Paired (BatchMatches rows startPos cfg width)
      (traceOf (process_flow_trace env cfg false width bsz rows startPos)) := by
  have hrun := run_rows_spec env cfg width bsz rows startPos rows 0 startPos
    initTState (List.drop_zero rows).symm (by omega)
    (BatchMatches_nil rows startPos cfg width)
  unfold process_flow_trace
  cases hres : run_rows env cfg false width bsz rows startPos initTState with
  | error t =>
    dsimp only
    obtain ⟨Δ, hΔ, hP⟩ := hrun.2 t hres
    have hev : t = Δ := by simpa [initTState] using hΔ
    show Paired (BatchMatches rows startPos cfg width) (traceOf (Except.error t))
    rw [show traceOf (Except.error t) = t from rfl, hev]
    exact hP
  | ok st =>
    dsimp only
    obtain ⟨Δ, hΔ, hB, hM⟩ := hrun.1 st hres
    have hev : st.events = Δ := by simpa [initTState] using hΔ
    obtain ⟨Δ', hΔ', hP'⟩ :=
      final_flush_tail env st (BatchMatches rows startPos cfg width) hM hM.1
    cases hff : final_flush env false st with
    | error t =>
      dsimp only
      rw [hff] at hΔ'
      show Paired (BatchMatches rows startPos cfg width) (traceOf (Except.error t))
      rw [show traceOf (Except.error t) = t from rfl,
        show t = st.events ++ Δ' from hΔ', hev]
      exact Blocks_append_paired Δ Δ' hB hP'
    | ok st' =>
      dsimp only
      rw [hff] at hΔ'
      show Paired (BatchMatches rows startPos cfg width)
        (traceOf (Except.ok (st'.events, st'.appended, st'.scanned)))
      rw [show traceOf (Except.ok (st'.events, st'.appended, st'.scanned))
            = st'.events from rfl,
        show st'.events = st.events ++ Δ' from hΔ', hev]
      exact Blocks_append_paired Δ Δ' hB hP'

/-- C10 (amended): flag write-back failures are swallowed for the FULL
in-loop batches - when the batch append succeeds and the batch's flag
`batch_update` raises an `APIError`, lines 318-327 catch it, keep the
batch's rows counted in `total_appended`, clear both pending lists, and the
unit continues (the flush returns normally, recording the failed write) -
BUT the final flush's `ws.batch_update` (line 340) is NOT guarded: when the
final partial batch's append succeeded and its flag write raises, the
exception propagates and the unit fails, its counters lost. -/
theorem C10_flag_failure_swallowed (env : TEnv) (st : TState)
    (hak : env.appendOk st.ak = true) (hfk : env.flagOk st.fk = false) :
    (flush_full env st = Except.ok
      { batch := [], flags := [],
        appended := st.appended + st.batch.length, scanned := st.scanned,
        events := st.events ++ [Ev.append st.batch, Ev.flagWrite false st.flags],
        ak := st.ak + 1, fk := st.fk + 1 })
    ∧ (st.batch ≠ [] → st.flags ≠ [] →
        final_flush env false st = Except.error
          ((st.events ++ [Ev.append st.batch]) ++ [Ev.flagWrite false st.flags])) := by
  constructor
  · unfold flush_full
    rw [if_pos hak, hfk]
  · intro hbne hfne
    have hbe : st.batch.isEmpty = false := by
      cases hb : st.batch with
      | nil => exact absurd hb hbne
      | cons a l => rfl
    have hfe : st.flags.isEmpty = false := by
      cases hf : st.flags with
      | nil => exact absurd hf hfne
      | cons a l => rfl
    unfold final_flush
    simp only [Bool.false_eq_true, if_false, hbe, hak, hfk, hfe, if_true]

/-- C10 witness: a concrete in-loop flush whose flag write fails: the
result is `.ok`, the two rows stay counted, and the pending lists are
cleared. -/
theorem C10_flag_failure_swallowed_witness :
    flush_full ⟨fun _ => true, fun _ => false⟩
        ⟨[["a"], ["b"]], [4, 5], 7, 9, [], 3, 2⟩
      = Except.ok
        ⟨[], [], 9, 9, [Ev.append [["a"], ["b"]], Ev.flagWrite false [4, 5]], 4, 3⟩ :=
  (C10_flag_failure_swallowed ⟨fun _ => true, fun _ => false⟩
    ⟨[["a"], ["b"]], [4, 5], 7, 9, [], 3, 2⟩ rfl rfl).1

/-- C10 counterexample: a unit whose single valid row forms a final partial
batch; its destination append succeeds, the flag `batch_update` raises an
`APIError` - and `process_flow_for_source` does NOT catch it: the unit
raises (`.error`) instead of continuing, losing its counters; so the claim
that a post-append flag-write `APIError` is always caught and the unit
continues is false. -/
theorem C10_counterexample :
    process_flow_trace ⟨fun _ => true, fun _ => false⟩
        ⟨[1], [(1, 1)], [], 2⟩ false 1 500 [["x"]] 4
      = Except.error [Ev.append [["x"]], Ev.flagWrite false [4]] := by
  rfl

/-! ### C6/C7: missing tab and the outer loop -/

theorem flow_totals_congr
    (u u' : String → String → Except (List Ev) (List Ev × Nat × Nat))
    (h : ∀ f s, unit_counts (u f s) = unit_counts (u' f s)) :
    ∀ (f : String) (sources : List String),
      flow_totals u f sources = flow_totals u' f sources := by
  intro f sources
  induction sources with
  | nil => rfl
  | cons sid rest ih =>
    simp only [flow_totals, h f sid, ih]

theorem main_run_congr (ts si : Nat) (sources : List String)
    (u u' : String → String → Except (List Ev) (List Ev × Nat × Nat))
    (h : ∀ f s, unit_counts (u f s) = unit_counts (u' f s)) :
    main_run ts si sources u = main_run ts si sources u' := by
  unfold main_run
  by_cases hemp : sources.isEmpty
  · rw [if_pos hemp, if_pos hemp]
  · rw [if_neg hemp, if_neg hemp]
    have h1 := flow_totals_congr u u' h "ALL" (shard_filter ts si sources)
    have h2 := flow_totals_congr u u' h "LI" (shard_filter ts si sources)
    simp only [flowNames, List.map, h1, h2]

/-- C6 counterexample: nothing marks an absent tab as terminal.  `main` is
a pure function of the registry and the unit outcomes - it takes no state
in and passes none out - so a run executed AFTER one that found the tab
absent computes exactly the same thing: the absent unit (here
("ALL", "s1"), whose outcome is the absent-tab result `(0, 0)`) appears in
the attempted-units list of every run, i.e. the same absent tab IS
re-tried on every subsequent run, contrary to the claim. -/
theorem C6_counterexample :
    process_unit ⟨[1], [(1, 1)], [], 2⟩ false 1 500 absentTabEnv
        = Except.ok ([], 0, 0)
    ∧ attempted (main_run 1 0 ["s1"]
        (fun _ _ => process_unit ⟨[1], [(1, 1)], [], 2⟩ false 1 500 absentTabEnv))
      = [("ALL", "s1"), ("LI", "s1")] := by
  exact ⟨rfl, rfl⟩

/-- C6 (amended): when the configured source tab is absent, the unit
returns zero appended and zero scanned immediately - no row is read or
written (the result does not depend on the window contents at all) - but
NO terminal state is advanced: the set of units a run attempts depends only
on the registry and the shard settings, never on any unit's earlier
outcome, so the same absent tab is re-checked on every subsequent run. -/
theorem C6_missing_tab (cfg : Cfg) (baseline : Bool) (width bsz : Nat)
    (e : UnitEnv) (habs : e.tabExists = false) :
    process_unit cfg baseline width bsz e = Except.ok ([], 0, 0)
    ∧ ∀ ts si sources u u',
        attempted (main_run ts si sources u)
          = attempted (main_run ts si sources u') := by
  constructor
  · unfold process_unit
    rw [habs]
    rfl
  · intro ts si sources u u'
    unfold main_run
    by_cases hemp : sources.isEmpty
    · rw [if_pos hemp, if_pos hemp]
    · rw [if_neg hemp, if_neg hemp]
      rfl

/-- C6 witness: the concrete absent-tab environment yields `(0, 0)`. -/
theorem C6_missing_tab_witness :
    process_unit ⟨[2], [(1, 1)], [], 3⟩ false 1 500 absentTabEnv
      = Except.ok ([], 0, 0) :=
  (C6_missing_tab ⟨[2], [(1, 1)], [], 3⟩ false 1 500 absentTabEnv rfl).1

/-- C7: unit-failure isolation.  A run with an empty registry terminates
successfully as a no-op before processing anything; and when one
(flow, source) unit raises, the outer loop's try/except attributes `(0, 0)`
to it and the whole run - per-flow counts and all attempted units - is
EXACTLY what it would have been had that unit instead returned zero rows:
all sibling sources and flows are unaffected and the run completes. -/
theorem C7_unit_isolation (ts si : Nat) (sources : List String)
    (u : String → String → Except (List Ev) (List Ev × Nat × Nat))
    (f0 s0 : String) (msg : List Ev)
    (hfail : u f0 s0 = Except.error msg) :
    main_run ts si [] u = MainResult.noSources
    ∧ main_run ts si sources u
        = main_run ts si sources
            (fun f s => if f = f0 ∧ s = s0 then Except.ok ([], 0, 0) else u f s) := by
  constructor
  · rfl
  · apply main_run_congr
    intro f s
    by_cases hc : f = f0 ∧ s = s0
    · obtain ⟨h1, h2⟩ := hc
      subst h1
      subst h2
      show unit_counts (u f s) = unit_counts (if f = f ∧ s = s then Except.ok ([], 0, 0) else u f s)
      rw [if_pos ⟨rfl, rfl⟩, hfail]
      rfl
    · show unit_counts (u f s) = unit_counts (if f = f0 ∧ s = s0 then Except.ok ([], 0, 0) else u f s)
      rw [if_neg hc]

/-- C7 witness: with a registry of two sources and the ("ALL", "s1") unit
raising, the run equals the run in which that unit returns zero. -/
theorem C7_unit_isolation_witness :
    main_run 1 0 []
        (fun f s => if f = "ALL" ∧ s = "s1" then Except.error [] else Except.ok ([], 1, 2))
      = MainResult.noSources
    ∧ main_run 1 0 ["s1", "s2"]
        (fun f s => if f = "ALL" ∧ s = "s1" then Except.error [] else Except.ok ([], 1, 2))
        = main_run 1 0 ["s1", "s2"]
            (fun f s => if f = "ALL" ∧ s = "s1" then Except.ok ([], 0, 0)
              else if f = "ALL" ∧ s = "s1" then Except.error [] else Except.ok ([], 1, 2)) :=
  C7_unit_isolation 1 0 ["s1", "s2"]
    (fun f s => if f = "ALL" ∧ s = "s1" then Except.error [] else Except.ok ([], 1, 2))
    "ALL" "s1" [] rfl

end TicketSync
